import Mathlib

/-!
Shallow embedding of the codecrafters-interpreter-rust repository
(lexer in `src/scanner.rs`, parser in `src/parser.rs`, tree-walking
evaluator and environment chain in `src/interpreter.rs`, data model in
`src/token.rs`, `src/expr.rs`, `src/stmt.rs`), together with theorems
settling the specification claims about it.

Modelling conventions:
* Rust `f64` number values are embedded as exact rationals (`ℚ`).  Every
  numeric computation exercised by the claims (small integer sums,
  comparisons with zero, decimal parsing and printing of decimal
  lexemes) is exact in IEEE double precision, so the rational model
  agrees with `f64` on them.  The saturating cast `n as i64` used by the
  runtime printer is modelled explicitly (`ratToInt64Sat`).
* Rust `HashMap<String, LiteralValue>` is embedded as an association
  list with unique keys (`insertAssoc` replaces an existing binding in
  place, as `HashMap::insert` does).
* Methods taking `&mut self` are embedded in state-passing style: they
  return the (possibly updated) receiver next to their Rust return
  value, and leave it unchanged exactly when the Rust code does not
  mutate it.
* `println!` output is collected in an explicit output list, one entry
  per `println!` call, with the trailing newline included.
* The recursive-descent parser is embedded with an explicit fuel
  argument; exhausting the fuel yields `none`.  A run that returns
  `none` for every fuel value models a non-terminating execution of the
  Rust original.
-/

namespace Lox

/-- Decimal digit character for a digit value, `Nat.digitChar`-style:
`0 ↦ '0'`, ..., `9 ↦ '9'`. -/
def digitChar (d : Nat) : Char := Char.ofNat (48 + d)

/-- Numeric value of a decimal digit character. -/
def digitVal (c : Char) : Nat := c.toNat - 48

/-- Most-significant-first decimal digit characters of `n`, empty for
`n = 0`; the fuel argument only bounds the recursion depth and any fuel
`≥ n` is enough. -/
def natDecCharsAux : Nat → Nat → List Char
  | 0, _ => []
  | fuel + 1, n =>
    if n = 0 then []
    else natDecCharsAux fuel (n / 10) ++ [digitChar (n % 10)]

/-- Decimal digit characters of a natural number, as Rust
`format!` renders an unsigned integer (`0` renders as `"0"`). -/
def natDecChars (n : Nat) : List Char :=
  if n = 0 then ['0'] else natDecCharsAux n n

/-- Decimal rendering of a natural number. -/
def natDecString (n : Nat) : String := String.mk (natDecChars n)

/-- Decimal digit characters of an integer, with a leading `'-'` for
negative values, as Rust `format!` renders an `i64`. -/
def intDecChars (i : Int) : List Char :=
  if i < 0 then '-' :: natDecChars i.natAbs else natDecChars i.natAbs

/-- Decimal rendering of an integer. -/
def intDecString (i : Int) : String := String.mk (intDecChars i)

/-- Longest prefix of characters satisfying `p`, together with the rest
of the list; embeds the scanner's `while let Some(c) = self.peek()`
consumption loops. -/
def spanP (p : Char → Bool) : List Char → List Char × List Char
  | [] => ([], [])
  | c :: cs =>
    if p c then
      let r := spanP p cs
      (c :: r.1, r.2)
    else ([], c :: cs)

/-- Left fold turning most-significant-first decimal digit characters
into a natural number. -/
def parseNatFold (acc : Nat) : List Char → Nat
  | [] => acc
  | c :: cs => parseNatFold (acc * 10 + digitVal c) cs

/-- Unsigned decimal-fraction parsing of `str::parse::<f64>` on the
digit strings this pipeline produces: a digit run, optionally followed
by `'.'` and a further digit run, at least one digit in total.  The
value is exact in the rational model. -/
def parseF64Unsigned (cs : List Char) : Option ℚ :=
  let s := spanP Char.isDigit cs
  match s.2 with
  | [] => if s.1 = [] then none else some (parseNatFold 0 s.1 : ℚ)
  | r :: rest2 =>
    if r = '.' then
      let f := spanP Char.isDigit rest2
      if f.2 = [] ∧ (s.1 ≠ [] ∨ f.1 ≠ []) then
        some ((parseNatFold 0 s.1 : ℚ) +
          (parseNatFold 0 f.1 : ℚ) / 10 ^ f.1.length)
      else none
    else none

/-- `str::parse::<f64>` on a character list (decimal forms only, with an
optional leading minus sign; the scientific and special forms never
arise in this pipeline). -/
def parseF64Chars (cs : List Char) : Option ℚ :=
  match cs with
  | [] => none
  | c :: rest =>
    if c = '-' then (parseF64Unsigned rest).map (fun q => -q)
    else parseF64Unsigned (c :: rest)

/-- `str::parse::<f64>` on a string. -/
def parseF64 (s : String) : Option ℚ := parseF64Chars s.toList

/-- Truncation toward zero of a rational, the behaviour of Rust
`f64::trunc` on exactly-represented values. -/
def ratTrunc (q : ℚ) : Int := q.num.tdiv q.den

/-- Fractional part `q - q.trunc()`, the behaviour of Rust `f64::fract`
on exactly-represented values. -/
def ratFract (q : ℚ) : ℚ := q - (ratTrunc q : ℚ)

/-- The saturating cast `n as i64` that Rust performs on an `f64`:
truncation toward zero, clamped into the `i64` range. -/
def ratToInt64Sat (q : ℚ) : Int :=
  max (-(2 ^ 63)) (min (2 ^ 63 - 1) (ratTrunc q))

/-- Exact decimal rendering of a non-negative rational whose reduced
denominator divides a power of ten: the integer part, then `'.'` and
the fraction digits when the value is not an integer.  This embeds
`f64::to_string()` on such values; it may keep trailing zero digits
that Rust's shortest-roundtrip printing would drop, which is
value-faithful (the string re-parses to exactly the same number, the
only property the code relies on). -/
def ratToDecCharsNN (q : ℚ) : List Char :=
  let n := q.num.natAbs
  let d := q.den
  match (List.range (d + 1)).find? (fun k => decide (d ∣ 10 ^ k)) with
  | some k =>
    if k = 0 then natDecChars n
    else
      let m := n * 10 ^ k / d
      let fracDigits := natDecChars (m % 10 ^ k)
      natDecChars (m / 10 ^ k) ++
        '.' :: (List.replicate (k - fracDigits.length) '0' ++ fracDigits)
  | none => []

/-- Decimal rendering of a rational (sign, then `ratToDecCharsNN`). -/
def ratToDecChars (q : ℚ) : List Char :=
  if q < 0 then '-' :: ratToDecCharsNN (-q) else ratToDecCharsNN q

/-- Decimal rendering of a rational, as a string. -/
def ratToDecString (q : ℚ) : String := String.mk (ratToDecChars q)

/-- Rust `format!` with one forced decimal place applied to a float.
Both call sites in `Scanner::scan_number` only reach it with
whole-valued floats, on which it appends `".0"` to the plain integer
rendering; the non-integral branch truncates to one digit and is never
exercised. -/
def fmtDot1 (q : ℚ) : String :=
  if ratFract q = 0 then intDecString (ratTrunc q) ++ ".0"
  else intDecString (ratTrunc q) ++ "." ++
    natDecString ((ratTrunc (ratFract q * 10)).natAbs)

/-- The closed token-kind enumeration of `src/token.rs`. -/
inductive TokenType where
  | LEFT_PAREN | RIGHT_PAREN | LEFT_BRACE | RIGHT_BRACE
  | STAR | DOT | COMMA | PLUS | MINUS | SEMICOLON
  | EQUAL | EQUAL_EQUAL | BANG | BANG_EQUAL
  | LESS | LESS_EQUAL | GREATER | GREATER_EQUAL | SLASH
  | IDENTIFIER | STRING | NUMBER
  | AND | CLASS | ELSE | FALSE | FOR | FUN | IF | NIL | OR
  | PRINT | RETURN | SUPER | THIS | TRUE | VAR | WHILE
  | EOF
deriving DecidableEq, Repr

/-- The token record of `src/token.rs`. -/
structure Token where
  token_type : TokenType
  lexeme : String
  literal : Option String
  line : Nat
deriving DecidableEq, Repr

/-- The runtime value union `LiteralValue` of `src/expr.rs`;
`f64` is embedded as `ℚ`. -/
inductive LiteralValue where
  | StringLiteral (s : String)
  | NumberLiteral (n : ℚ)
  | BooleanLiteral (b : Bool)
  | Nil
deriving DecidableEq, Repr

/-- Left brace character, `'\x7b'`. -/
def leftBraceChar : Char := Char.ofNat 123

/-- Right brace character, `'\x7d'`. -/
def rightBraceChar : Char := Char.ofNat 125

/-- Single-quote character, used to build diagnostic messages. -/
def squote : String := String.mk [Char.ofNat 39]

/-- The keyword table built in `Scanner::new`. -/
def keywords : List (String × TokenType) :=
  [("and", .AND), ("class", .CLASS), ("else", .ELSE), ("false", .FALSE),
   ("for", .FOR), ("fun", .FUN), ("if", .IF), ("nil", .NIL),
   ("or", .OR), ("print", .PRINT), ("return", .RETURN),
   ("super", .SUPER), ("this", .THIS), ("true", .TRUE),
   ("var", .VAR), ("while", .WHILE)]

/-- First value bound to `key` in an association list (`HashMap::get`). -/
def lookupAssoc {α : Type} : List (String × α) → String → Option α
  | [], _ => none
  | (k, v) :: rest, key => if k = key then some v else lookupAssoc rest key

/-- `Scanner::match_next`: consume the next character when it equals
`expected`, reporting whether it did. -/
def matchNext (expected : Char) : List Char → Bool × List Char
  | [] => (false, [])
  | c :: cs => if c = expected then (true, cs) else (false, c :: cs)

/-- `Scanner::skip_to_end_of_line`: consume up to and including the next
newline (counting it) or to the end of input. -/
def skipLine : List Char → Nat → List Char × Nat
  | [], line => ([], line)
  | c :: cs, line =>
    if c = '\n' then (cs, line + 1) else skipLine cs line

/-- The consumption loop of `Scanner::scan_string`, entered after the
opening quote: returns the contents and the rest on a closing quote,
`none` on end of input (unterminated string), and the updated line
counter either way. -/
def scanStringLoop : List Char → Nat → Option (List Char × List Char) × Nat
  | [], line => (none, line)
  | c :: cs, line =>
    if c = '"' then (some ([], cs), line)
    else
      let r := scanStringLoop cs (if c = '\n' then line + 1 else line)
      ((r.1.map fun p => (c :: p.1, p.2)), r.2)

/-- The fractional-part test of `Scanner::scan_number`: after the
integer digit run, when a `'.'` is directly followed by a digit, the
dot and the following digit run are consumed; returns the consumed
fraction digits and the remaining input in that case. -/
def numberFracPart (afterInt : List Char) :
    Option (List Char × List Char) :=
  match afterInt with
  | dot :: afterDot =>
    if dot = '.' then
      match afterDot with
      | d :: _ =>
        if d.isDigit then
          let f := spanP Char.isDigit afterDot
          some (f.1, f.2)
        else none
      | [] => none
    else none
  | [] => none

/-- `Scanner::scan_number`, entered after its first digit `c`:
consumes the digit run, then a fraction when a `'.'` is directly
followed by a digit, parses the lexeme, and stores the re-formatted
literal text described in the source (`"{:.1}"` when there is no
fractional part or its digits are all zero, `to_string` otherwise).
Returns the token and the remaining input. -/
def scanNumber (c : Char) (rest : List Char) (line : Nat) :
    Token × List Char :=
  let s := spanP Char.isDigit rest
  match numberFracPart s.2 with
  | some (fracDigits, rest3) =>
    let lexeme := c :: s.1 ++ '.' :: fracDigits
    let v := (parseF64Chars lexeme).getD 0
    -- `lexeme.split('.')` yields the digits before and after the dot;
    -- by construction the part after the dot is `fracDigits`.
    let literalStr :=
      if fracDigits.all (fun d => d = '0') then fmtDot1 v
      else ratToDecString v
    (⟨.NUMBER, String.mk lexeme, some literalStr, line⟩, rest3)
  | none =>
    let lexeme := c :: s.1
    let v := (parseF64Chars lexeme).getD 0
    (⟨.NUMBER, String.mk lexeme, some (fmtDot1 v), line⟩, s.2)

/-- `Scanner::scan_identifier`, entered after its first character `c`:
consumes letters, digits and underscores, then classifies the lexeme
through the keyword table. -/
def scanIdentifier (c : Char) (rest : List Char) (line : Nat) :
    Token × List Char :=
  let s := spanP (fun ch => ch.isAlphanum || ch = '_') rest
  let lexeme := String.mk (c :: s.1)
  (⟨(lookupAssoc keywords lexeme).getD .IDENTIFIER, lexeme, none, line⟩,
    s.2)

/-- Token kind and lexeme of the fixed single-character tokens
(the first ten arms of the `match` in `Scanner::scan_token`). -/
def simpleTokenType (c : Char) : Option (TokenType × String) :=
  if c = '(' then some (.LEFT_PAREN, "(")
  else if c = ')' then some (.RIGHT_PAREN, ")")
  else if c = leftBraceChar then some (.LEFT_BRACE, String.mk [leftBraceChar])
  else if c = rightBraceChar then
    some (.RIGHT_BRACE, String.mk [rightBraceChar])
  else if c = '*' then some (.STAR, "*")
  else if c = '.' then some (.DOT, ".")
  else if c = ',' then some (.COMMA, ",")
  else if c = '+' then some (.PLUS, "+")
  else if c = '-' then some (.MINUS, "-")
  else if c = ';' then some (.SEMICOLON, ";")
  else none

/-- The shared shape of the `=`, `!`, `<`, `>` arms of
`Scanner::scan_token`: look ahead for a trailing `'='` and emit the
two-character kind when it is there, the one-character kind otherwise. -/
def twoCharToken (rest : List Char) (line : Nat)
    (twoType : TokenType) (twoLex : String)
    (oneType : TokenType) (oneLex : String) :
    List Token × List Char × Nat × Bool :=
  let m := matchNext '=' rest
  if m.1 then ([⟨twoType, twoLex, none, line⟩], m.2, line, false)
  else ([⟨oneType, oneLex, none, line⟩], m.2, line, false)

/-- The `'"'` arm of `Scanner::scan_token` (`Scanner::scan_string`):
emit a STRING token on a closing quote (lexeme with the quotes, literal
without); on end of input record an "Unterminated string." lexical
error, all input consumed. -/
def scanStringToken (rest : List Char) (line : Nat) :
    List Token × List Char × Nat × Bool :=
  match scanStringLoop rest line with
  | (some (content, rest2), line2) =>
    ([⟨.STRING, "\"" ++ String.mk content ++ "\"",
        some (String.mk content), line2⟩], rest2, line2, false)
  | (none, line2) => ([], [], line2, true)

/-- The `'/'` arm of `Scanner::scan_token`: a second `'/'` starts a
line comment that is skipped without emitting a token; otherwise a
SLASH token is emitted. -/
def slashToken (rest : List Char) (line : Nat) :
    List Token × List Char × Nat × Bool :=
  let m := matchNext '/' rest
  if m.1 then
    let r := skipLine m.2 line
    ([], r.1, r.2, false)
  else ([⟨.SLASH, "/", none, line⟩], m.2, line, false)

/-- One step of `Scanner::scan_token`, after `advance` has produced the
character `c`: returns the freshly emitted tokens (zero or one), the
remaining input, the updated line counter, and whether this step
recorded a lexical error. -/
def scanTokenStep (c : Char) (rest : List Char) (line : Nat) :
    List Token × List Char × Nat × Bool :=
  match simpleTokenType c with
  | some (t, lx) => ([⟨t, lx, none, line⟩], rest, line, false)
  | none =>
    if c = '=' then twoCharToken rest line .EQUAL_EQUAL "==" .EQUAL "="
    else if c = '!' then twoCharToken rest line .BANG_EQUAL "!=" .BANG "!"
    else if c = '<' then twoCharToken rest line .LESS_EQUAL "<=" .LESS "<"
    else if c = '>' then
      twoCharToken rest line .GREATER_EQUAL ">=" .GREATER ">"
    else if c = '/' then slashToken rest line
    else if c = '"' then scanStringToken rest line
    else if c = '\n' then ([], rest, line + 1, false)
    else if c = '\t' then ([], rest, line, false)
    else if c = ' ' then ([], rest, line, false)
    else if c.isDigit then
      let r := scanNumber c rest line
      ([r.1], r.2, line, false)
    else if c.isAlpha || c = '_' then
      let r := scanIdentifier c rest line
      ([r.1], r.2, line, false)
    else ([], rest, line, true)  -- "Unexpected character: c"

theorem spanP_rest_length (p : Char → Bool) :
    ∀ cs : List Char, (spanP p cs).2.length ≤ cs.length := by
  intro cs
  induction cs with
  | nil => simp [spanP]
  | cons c cs ih =>
    simp only [spanP]
    split
    · simpa using Nat.le_succ_of_le ih
    · simp

theorem skipLine_rest_length :
    ∀ (cs : List Char) (line : Nat),
      (skipLine cs line).1.length ≤ cs.length := by
  intro cs
  induction cs with
  | nil => intro line; simp [skipLine]
  | cons c cs ih =>
    intro line
    simp only [skipLine]
    split
    · simp
    · exact Nat.le_succ_of_le (ih line)

theorem scanStringLoop_rest_length :
    ∀ (cs : List Char) (line : Nat) (content rest2 : List Char),
      (scanStringLoop cs line).1 = some (content, rest2) →
      rest2.length ≤ cs.length := by
  intro cs
  induction cs with
  | nil => intro line content rest2 h; simp [scanStringLoop] at h
  | cons c cs ih =>
    intro line content rest2 h
    by_cases hc : c = '"'
    · simp only [scanStringLoop, hc, if_pos, Option.some.injEq,
        Prod.mk.injEq] at h
      exact h.2 ▸ Nat.le_succ _
    · cases hr : (scanStringLoop cs (if c = '\n' then line + 1 else line)).1
        with
      | none => simp [scanStringLoop, hc, hr] at h
      | some p =>
        simp [scanStringLoop, hc, hr] at h
        have hih := ih (if c = '\n' then line + 1 else line) p.1 p.2
          (by simpa using hr)
        have h2 : rest2 = p.2 := h.2.symm
        subst h2
        exact Nat.le_succ_of_le hih


theorem matchNext_rest_length (e : Char) :
    ∀ cs : List Char, (matchNext e cs).2.length ≤ cs.length := by
  intro cs
  cases cs with
  | nil => simp [matchNext]
  | cons c cs =>
    simp only [matchNext]
    split <;> simp

theorem numberFracPart_some_length (x f r : List Char)
    (h : numberFracPart x = some (f, r)) : r.length < x.length := by
  cases x with
  | nil => exact Option.noConfusion h
  | cons dot afterDot =>
    simp only [numberFracPart] at h
    repeat' split at h
    all_goals try exact Option.noConfusion h
    rename_i d tail hdig
    simp only [Option.some.injEq, Prod.mk.injEq] at h
    rw [← h.2]
    have hsp := spanP_rest_length Char.isDigit (d :: tail)
    simp only [List.length_cons] at hsp ⊢
    omega

theorem scanNumber_rest_length (c : Char) (rest : List Char) (line : Nat) :
    (scanNumber c rest line).2.length ≤ rest.length := by
  cases hf : numberFracPart (spanP Char.isDigit rest).2 with
  | none =>
    simp only [scanNumber, hf]
    exact spanP_rest_length Char.isDigit rest
  | some p =>
    rcases p with ⟨f, r3⟩
    simp only [scanNumber, hf]
    exact le_trans (le_of_lt (numberFracPart_some_length _ f r3 hf))
      (spanP_rest_length Char.isDigit rest)

theorem scanIdentifier_rest_length (c : Char) (rest : List Char)
    (line : Nat) : (scanIdentifier c rest line).2.length ≤ rest.length := by
  simpa [scanIdentifier] using
    spanP_rest_length (fun ch => ch.isAlphanum || ch = '_') rest

theorem twoCharToken_rest_length (rest : List Char) (line : Nat)
    (t2 : TokenType) (l2 : String) (t1 : TokenType) (l1 : String) :
    (twoCharToken rest line t2 l2 t1 l1).2.1.length ≤ rest.length := by
  simp only [twoCharToken]
  split <;> exact matchNext_rest_length '=' rest

theorem scanStringToken_rest_length (rest : List Char) (line : Nat) :
    (scanStringToken rest line).2.1.length ≤ rest.length := by
  rcases hq : scanStringLoop rest line with ⟨ro, line2⟩
  cases ro with
  | none => simp [scanStringToken, hq]
  | some p =>
    rcases p with ⟨content, rest2⟩
    simp only [scanStringToken, hq]
    exact scanStringLoop_rest_length rest line content rest2
      (by rw [hq])

theorem slashToken_rest_length (rest : List Char) (line : Nat) :
    (slashToken rest line).2.1.length ≤ rest.length := by
  simp only [slashToken]
  split
  · exact le_trans (skipLine_rest_length _ _) (matchNext_rest_length _ rest)
  · exact matchNext_rest_length _ rest

theorem scanTokenStep_rest_length (c : Char) (rest : List Char)
    (line : Nat) : (scanTokenStep c rest line).2.1.length ≤ rest.length := by
  unfold scanTokenStep
  split
  · exact le_refl _
  by_cases h1 : c = '='
  case pos => rw [if_pos h1]; exact twoCharToken_rest_length rest line _ _ _ _
  rw [if_neg h1]
  by_cases h2 : c = '!'
  case pos => rw [if_pos h2]; exact twoCharToken_rest_length rest line _ _ _ _
  rw [if_neg h2]
  by_cases h3 : c = '<'
  case pos => rw [if_pos h3]; exact twoCharToken_rest_length rest line _ _ _ _
  rw [if_neg h3]
  by_cases h4 : c = '>'
  case pos => rw [if_pos h4]; exact twoCharToken_rest_length rest line _ _ _ _
  rw [if_neg h4]
  by_cases h5 : c = '/'
  case pos => rw [if_pos h5]; exact slashToken_rest_length rest line
  rw [if_neg h5]
  by_cases h6 : c = '"'
  case pos => rw [if_pos h6]; exact scanStringToken_rest_length rest line
  rw [if_neg h6]
  by_cases h7 : c = '\n'
  case pos => rw [if_pos h7]
  rw [if_neg h7]
  by_cases h8 : c = '\t'
  case pos => rw [if_pos h8]
  rw [if_neg h8]
  by_cases h9 : c = ' '
  case pos => rw [if_pos h9]
  rw [if_neg h9]
  by_cases h10 : c.isDigit = true
  case pos => rw [if_pos h10]; exact scanNumber_rest_length c rest line
  rw [if_neg h10]
  by_cases h11 : (c.isAlpha || decide (c = '_')) = true
  case pos => rw [if_pos h11]; exact scanIdentifier_rest_length c rest line
  rw [if_neg h11]

/-- The loop of `Scanner::scan_tokens`: run `scan_token` until the input
is exhausted, then append exactly one EOF token carrying the final line
counter, returning the token list and the error flag. -/
def scanLoop : List Char → Nat → List Token → Bool → List Token × Bool
  | [], line, toks, err => (toks ++ [⟨.EOF, "", none, line⟩], err)
  | c :: rest, line, toks, err =>
    let r := scanTokenStep c rest line
    scanLoop r.2.1 r.2.2.1 (toks ++ r.1) (err || r.2.2.2)
termination_by cs _ _ _ => cs.length
decreasing_by
  exact Nat.lt_succ_of_le (scanTokenStep_rest_length c rest line)

/-- `Scanner::scan_tokens` on a fresh scanner (`scan` in the spec):
the token sequence and the lexical error flag. -/
def scanTokens (source : String) : List Token × Bool :=
  scanLoop source.toList 1 [] false

theorem simpleTokenType_no_eof (c : Char) (t : TokenType) (lx : String)
    (h : simpleTokenType c = some (t, lx)) : t ≠ TokenType.EOF := by
  unfold simpleTokenType at h
  repeat' split at h
  all_goals try exact Option.noConfusion h
  all_goals
    injection h with hp
    injection hp with ht hl
    subst ht
    simp

theorem lookupAssoc_mem_values {α : Type} :
    ∀ (l : List (String × α)) (s : String) (v : α),
      lookupAssoc l s = some v → v ∈ l.map Prod.snd := by
  intro l
  induction l with
  | nil => intro s v h; simp [lookupAssoc] at h
  | cons p rest ih =>
    intro s v h
    simp only [lookupAssoc] at h
    split at h
    · simp only [Option.some.injEq] at h
      subst h
      simp
    · simpa using Or.inr (ih s v h)

theorem keyword_lookup_no_eof (s : String) :
    (lookupAssoc keywords s).getD TokenType.IDENTIFIER ≠ TokenType.EOF := by
  cases h : lookupAssoc keywords s with
  | none => simp
  | some t =>
    have hmem := lookupAssoc_mem_values keywords s t h
    have hall : ∀ x ∈ keywords.map Prod.snd, x ≠ TokenType.EOF := by decide
    simpa using hall t hmem

theorem twoCharToken_no_eof (rest : List Char) (line : Nat)
    (t2 : TokenType) (l2 : String) (t1 : TokenType) (l1 : String)
    (h2 : t2 ≠ TokenType.EOF) (h1 : t1 ≠ TokenType.EOF) :
    ∀ t ∈ (twoCharToken rest line t2 l2 t1 l1).1,
      t.token_type ≠ TokenType.EOF := by
  simp only [twoCharToken]
  split
  · intro t ht
    simp only [List.mem_singleton] at ht
    subst ht
    simpa using h2
  · intro t ht
    simp only [List.mem_singleton] at ht
    subst ht
    simpa using h1

theorem slashToken_no_eof (rest : List Char) (line : Nat) :
    ∀ t ∈ (slashToken rest line).1, t.token_type ≠ TokenType.EOF := by
  simp only [slashToken]
  split <;> simp

theorem scanStringToken_no_eof (rest : List Char) (line : Nat) :
    ∀ t ∈ (scanStringToken rest line).1, t.token_type ≠ TokenType.EOF := by
  unfold scanStringToken
  split <;> simp_all

theorem scanNumber_token_type (c : Char) (rest : List Char) (line : Nat) :
    (scanNumber c rest line).1.token_type = TokenType.NUMBER := by
  cases hf : numberFracPart (spanP Char.isDigit rest).2 with
  | none => simp [scanNumber, hf]
  | some p =>
    rcases p with ⟨f, r3⟩
    simp [scanNumber, hf]

theorem scanIdentifier_no_eof (c : Char) (rest : List Char) (line : Nat) :
    (scanIdentifier c rest line).1.token_type ≠ TokenType.EOF := by
  unfold scanIdentifier
  exact keyword_lookup_no_eof _

theorem scanTokenStep_no_eof (c : Char) (rest : List Char) (line : Nat) :
    ∀ t ∈ (scanTokenStep c rest line).1, t.token_type ≠ TokenType.EOF := by
  unfold scanTokenStep
  split
  · next t lx heq =>
    simpa using simpleTokenType_no_eof c t lx heq
  by_cases h1 : c = '='
  case pos =>
    rw [if_pos h1]
    exact twoCharToken_no_eof rest line _ _ _ _ (by simp) (by simp)
  rw [if_neg h1]
  by_cases h2 : c = '!'
  case pos =>
    rw [if_pos h2]
    exact twoCharToken_no_eof rest line _ _ _ _ (by simp) (by simp)
  rw [if_neg h2]
  by_cases h3 : c = '<'
  case pos =>
    rw [if_pos h3]
    exact twoCharToken_no_eof rest line _ _ _ _ (by simp) (by simp)
  rw [if_neg h3]
  by_cases h4 : c = '>'
  case pos =>
    rw [if_pos h4]
    exact twoCharToken_no_eof rest line _ _ _ _ (by simp) (by simp)
  rw [if_neg h4]
  by_cases h5 : c = '/'
  case pos => rw [if_pos h5]; exact slashToken_no_eof rest line
  rw [if_neg h5]
  by_cases h6 : c = '"'
  case pos => rw [if_pos h6]; exact scanStringToken_no_eof rest line
  rw [if_neg h6]
  by_cases h7 : c = '\n'
  case pos => rw [if_pos h7]; simp
  rw [if_neg h7]
  by_cases h8 : c = '\t'
  case pos => rw [if_pos h8]; simp
  rw [if_neg h8]
  by_cases h9 : c = ' '
  case pos => rw [if_pos h9]; simp
  rw [if_neg h9]
  by_cases h10 : c.isDigit = true
  case pos =>
    rw [if_pos h10]
    intro t ht
    simp only [List.mem_singleton] at ht
    subst ht
    rw [scanNumber_token_type c rest line]
    simp
  rw [if_neg h10]
  by_cases h11 : (c.isAlpha || decide (c = '_')) = true
  case pos =>
    rw [if_pos h11]
    intro t ht
    simp only [List.mem_singleton] at ht
    subst ht
    exact scanIdentifier_no_eof c rest line
  rw [if_neg h11]
  simp

theorem scanLoop_structure :
    ∀ (n : Nat) (cs : List Char), cs.length ≤ n →
    ∀ (line : Nat) (toks : List Token) (err : Bool),
      ∃ (body : List Token) (line2 : Nat),
        (scanLoop cs line toks err).1 =
          toks ++ body ++ [⟨TokenType.EOF, "", none, line2⟩] ∧
        ∀ t ∈ body, t.token_type ≠ TokenType.EOF := by
  intro n
  induction n with
  | zero =>
    intro cs hcs line toks err
    have : cs = [] := List.length_eq_zero.mp (Nat.le_zero.mp hcs)
    subst this
    exact ⟨[], line, by simp [scanLoop], by simp⟩
  | succ n ih =>
    intro cs hcs line toks err
    cases cs with
    | nil => exact ⟨[], line, by simp [scanLoop], by simp⟩
    | cons c rest =>
      rw [scanLoop]
      have hlen : (scanTokenStep c rest line).2.1.length ≤ n := by
        have := scanTokenStep_rest_length c rest line
        simp only [List.length_cons] at hcs
        omega
      obtain ⟨body2, line2, heq, hbody2⟩ :=
        ih (scanTokenStep c rest line).2.1 hlen
          (scanTokenStep c rest line).2.2.1
          (toks ++ (scanTokenStep c rest line).1)
          (err || (scanTokenStep c rest line).2.2.2)
      refine ⟨(scanTokenStep c rest line).1 ++ body2, line2, ?_, ?_⟩
      · rw [heq]
        simp [List.append_assoc]
      · intro t ht
        rcases List.mem_append.mp ht with h | h
        · exact scanTokenStep_no_eof c rest line t h
        · exact hbody2 t h

/-- C9: for every input source text the token sequence produced by
scanning contains exactly one end-of-file marker and it is the last
element; and scanning the empty string yields just the end marker on
line 1 with no error flagged. -/
theorem C9_scan_eof_invariant :
    (∀ source : String,
      List.countP (fun t => t.token_type == TokenType.EOF)
          (scanTokens source).1 = 1 ∧
      ∃ line2 : Nat, (scanTokens source).1.getLast? =
        some ⟨TokenType.EOF, "", none, line2⟩) ∧
    scanTokens "" = ([⟨TokenType.EOF, "", none, 1⟩], false) := by
  constructor
  · intro source
    obtain ⟨body, line2, heq, hbody⟩ :=
      scanLoop_structure source.toList.length source.toList (le_refl _)
        1 [] false
    rw [scanTokens, heq]
    constructor
    · rw [List.countP_append]
      have h0 : List.countP (fun t => t.token_type == TokenType.EOF)
          ([] ++ body) = 0 := by
        rw [List.countP_eq_zero]
        intro t ht
        simpa using hbody t (by simpa using ht)
      simp only [List.nil_append] at h0 ⊢
      rw [h0]
      simp
    · exact ⟨line2, by simp⟩
  · rw [scanTokens]
    simp [scanLoop]

/-- The expression tree of `src/expr.rs` (`variableExpr` embeds the
`Variable` constructor, whose name is reserved in Lean). -/
inductive Expr where
  | assign (name : Token) (value : Expr)
  | binary (left : Expr) (operator : Token) (right : Expr)
  | grouping (e : Expr)
  | literal (value : LiteralValue)
  | unary (operator : Token) (right : Expr)
  | variableExpr (name : Token)
deriving DecidableEq, Repr

/-- The statement tree of `src/stmt.rs`. -/
inductive Stmt where
  | expression (e : Expr)
  | print (e : Expr)
  | var (name : Token) (initializer : Option Expr)
  | block (statements : List Stmt)
deriving Repr

/-- `Parser::peek`: the token at the current index (the EOF-terminated
token sequences produced by the scanner keep the index in bounds; the
default is never reached on them). -/
def peekTok (toks : List Token) (cur : Nat) : Token :=
  toks.getD cur ⟨.EOF, "", none, 0⟩

/-- `Parser::previous`. -/
def previousTok (toks : List Token) (cur : Nat) : Token :=
  peekTok toks (cur - 1)

/-- `Parser::is_at_end`. -/
def isAtEndP (toks : List Token) (cur : Nat) : Bool :=
  (peekTok toks cur).token_type == .EOF

/-- `Parser::check`. -/
def checkP (toks : List Token) (cur : Nat) (tt : TokenType) : Bool :=
  if isAtEndP toks cur then false
  else (peekTok toks cur).token_type == tt

/-- `Parser::advance`: the updated index. -/
def advanceP (toks : List Token) (cur : Nat) : Nat :=
  if isAtEndP toks cur then cur else cur + 1

/-- `Parser::match_token`: whether some listed kind matched, and the
updated index (advanced exactly when a kind matched). -/
def matchTokenP (toks : List Token) (cur : Nat) (types : List TokenType) :
    Bool × Nat :=
  if types.any (fun tt => checkP toks cur tt) then
    (true, advanceP toks cur)
  else (false, cur)

/-- `Parser::consume`: the demanded token and the advanced index on a
match; otherwise `none` with the index unchanged (the source also
prints the message — without any line number — to stderr there). -/
def consumeP (toks : List Token) (cur : Nat) (tt : TokenType) :
    Option Token × Nat :=
  if checkP toks cur tt then (some (peekTok toks cur), advanceP toks cur)
  else (none, cur)

mutual

/-- `Parser::expression` (fuelled; `none` on fuel exhaustion). -/
def expressionP : Nat → List Token → Nat → Option Expr × Nat
  | 0, _, cur => (none, cur)
  | fuel + 1, toks, cur => assignmentP fuel toks cur

/-- `Parser::assignment`.  On a non-`Variable` assignment target the
source calls `error("Invalid assignment target.")`, which exits the
process; that exit is embedded as `none`. -/
def assignmentP : Nat → List Token → Nat → Option Expr × Nat
  | 0, _, cur => (none, cur)
  | fuel + 1, toks, cur =>
    let e := equalityP fuel toks cur
    let m := matchTokenP toks e.2 [.EQUAL]
    if m.1 then
      let v := assignmentP fuel toks m.2
      match e.1 with
      | some (.variableExpr name) =>
        match v.1 with
        | some vv => (some (.assign name vv), v.2)
        | none => (none, v.2)
      | _ => (none, v.2)
    else e

/-- `Parser::equality` (the `while` loop is `equalityLoopP`). -/
def equalityP : Nat → List Token → Nat → Option Expr × Nat
  | 0, _, cur => (none, cur)
  | fuel + 1, toks, cur =>
    let e := comparisonP fuel toks cur
    equalityLoopP fuel toks e.1 e.2

/-- The `while self.match_token(&[BANG_EQUAL, EQUAL_EQUAL])` loop of
`Parser::equality`; `?` on a missing operand returns `none`. -/
def equalityLoopP : Nat → List Token → Option Expr → Nat →
    Option Expr × Nat
  | 0, _, _, cur => (none, cur)
  | fuel + 1, toks, e, cur =>
    let m := matchTokenP toks cur [.BANG_EQUAL, .EQUAL_EQUAL]
    if m.1 then
      let op := previousTok toks m.2
      let r := comparisonP fuel toks m.2
      match e with
      | none => (none, r.2)
      | some l =>
        match r.1 with
        | none => (none, r.2)
        | some rv => equalityLoopP fuel toks (some (.binary l op rv)) r.2
    else (e, cur)

/-- `Parser::comparison`. -/
def comparisonP : Nat → List Token → Nat → Option Expr × Nat
  | 0, _, cur => (none, cur)
  | fuel + 1, toks, cur =>
    let e := termP fuel toks cur
    comparisonLoopP fuel toks e.1 e.2

/-- The relational-operator loop of `Parser::comparison`. -/
def comparisonLoopP : Nat → List Token → Option Expr → Nat →
    Option Expr × Nat
  | 0, _, _, cur => (none, cur)
  | fuel + 1, toks, e, cur =>
    let m := matchTokenP toks cur
      [.GREATER, .GREATER_EQUAL, .LESS, .LESS_EQUAL]
    if m.1 then
      let op := previousTok toks m.2
      let r := termP fuel toks m.2
      match e with
      | none => (none, r.2)
      | some l =>
        match r.1 with
        | none => (none, r.2)
        | some rv => comparisonLoopP fuel toks (some (.binary l op rv)) r.2
    else (e, cur)

/-- `Parser::term`. -/
def termP : Nat → List Token → Nat → Option Expr × Nat
  | 0, _, cur => (none, cur)
  | fuel + 1, toks, cur =>
    let e := factorP fuel toks cur
    termLoopP fuel toks e.1 e.2

/-- The `+`/`-` loop of `Parser::term`. -/
def termLoopP : Nat → List Token → Option Expr → Nat → Option Expr × Nat
  | 0, _, _, cur => (none, cur)
  | fuel + 1, toks, e, cur =>
    let m := matchTokenP toks cur [.PLUS, .MINUS]
    if m.1 then
      let op := previousTok toks m.2
      let r := factorP fuel toks m.2
      match e with
      | none => (none, r.2)
      | some l =>
        match r.1 with
        | none => (none, r.2)
        | some rv => termLoopP fuel toks (some (.binary l op rv)) r.2
    else (e, cur)

/-- `Parser::factor`. -/
def factorP : Nat → List Token → Nat → Option Expr × Nat
  | 0, _, cur => (none, cur)
  | fuel + 1, toks, cur =>
    let e := unaryP fuel toks cur
    factorLoopP fuel toks e.1 e.2

/-- The `*`/`/` loop of `Parser::factor`. -/
def factorLoopP : Nat → List Token → Option Expr → Nat → Option Expr × Nat
  | 0, _, _, cur => (none, cur)
  | fuel + 1, toks, e, cur =>
    let m := matchTokenP toks cur [.STAR, .SLASH]
    if m.1 then
      let op := previousTok toks m.2
      let r := unaryP fuel toks m.2
      match e with
      | none => (none, r.2)
      | some l =>
        match r.1 with
        | none => (none, r.2)
        | some rv => factorLoopP fuel toks (some (.binary l op rv)) r.2
    else (e, cur)

/-- `Parser::unary`. -/
def unaryP : Nat → List Token → Nat → Option Expr × Nat
  | 0, _, cur => (none, cur)
  | fuel + 1, toks, cur =>
    let m := matchTokenP toks cur [.BANG, .MINUS]
    if m.1 then
      let op := previousTok toks m.2
      let r := unaryP fuel toks m.2
      match r.1 with
      | some rv => (some (.unary op rv), r.2)
      | none => (none, r.2)
    else primaryP fuel toks cur

/-- `Parser::primary`.  The NUMBER arm re-parses the token's stored
literal text with `str::parse::<f64>` and fails (`.ok()?`) when that
fails; the parenthesis arm runs `consume` before inspecting the inner
expression, as the source's `?` placement does. -/
def primaryP : Nat → List Token → Nat → Option Expr × Nat
  | 0, _, cur => (none, cur)
  | fuel + 1, toks, cur =>
    let mn := matchTokenP toks cur [.NUMBER]
    if mn.1 then
      match (previousTok toks mn.2).literal with
      | some lit =>
        match parseF64 lit with
        | some v => (some (.literal (.NumberLiteral v)), mn.2)
        | none => (none, mn.2)
      | none => (none, mn.2)
    else
      let ms := matchTokenP toks cur [.STRING]
      if ms.1 then
        match (previousTok toks ms.2).literal with
        | some lit => (some (.literal (.StringLiteral lit)), ms.2)
        | none => (none, ms.2)
      else
        let mt := matchTokenP toks cur [.TRUE]
        if mt.1 then (some (.literal (.BooleanLiteral true)), mt.2)
        else
          let mf := matchTokenP toks cur [.FALSE]
          if mf.1 then (some (.literal (.BooleanLiteral false)), mf.2)
          else
            let mnil := matchTokenP toks cur [.NIL]
            if mnil.1 then (some (.literal .Nil), mnil.2)
            else
              let mi := matchTokenP toks cur [.IDENTIFIER]
              if mi.1 then
                (some (.variableExpr (previousTok toks mi.2)), mi.2)
              else
                let mp := matchTokenP toks cur [.LEFT_PAREN]
                if mp.1 then
                  let e := expressionP fuel toks mp.2
                  let c2 := consumeP toks e.2 .RIGHT_PAREN
                  match c2.1 with
                  | none => (none, c2.2)
                  | some _ =>
                    match e.1 with
                    | some ex => (some (.grouping ex), c2.2)
                    | none => (none, c2.2)
                else (none, cur)

end

mutual

/-- `Parser::declaration`. -/
def declarationP : Nat → List Token → Nat → Option Stmt × Nat
  | 0, _, cur => (none, cur)
  | fuel + 1, toks, cur =>
    let m := matchTokenP toks cur [.VAR]
    if m.1 then varDeclarationP fuel toks m.2
    else statementP fuel toks cur

/-- `Parser::var_declaration`. -/
def varDeclarationP : Nat → List Token → Nat → Option Stmt × Nat
  | 0, _, cur => (none, cur)
  | fuel + 1, toks, cur =>
    let c := consumeP toks cur .IDENTIFIER
    match c.1 with
    | none => (none, c.2)
    | some name =>
      let m := matchTokenP toks c.2 [.EQUAL]
      if m.1 then
        let e := expressionP fuel toks m.2
        match e.1 with
        | none => (none, e.2)
        | some init =>
          let c2 := consumeP toks e.2 .SEMICOLON
          match c2.1 with
          | none => (none, c2.2)
          | some _ => (some (.var name (some init)), c2.2)
      else
        let c2 := consumeP toks m.2 .SEMICOLON
        match c2.1 with
        | none => (none, c2.2)
        | some _ => (some (.var name none), c2.2)

/-- `Parser::statement`. -/
def statementP : Nat → List Token → Nat → Option Stmt × Nat
  | 0, _, cur => (none, cur)
  | fuel + 1, toks, cur =>
    let m := matchTokenP toks cur [.PRINT]
    if m.1 then printStatementP fuel toks m.2
    else
      let mb := matchTokenP toks cur [.LEFT_BRACE]
      if mb.1 then
        let b := blockP fuel toks mb.2
        match b.1 with
        | some stmts => (some (.block stmts), b.2)
        | none => (none, b.2)
      else expressionStatementP fuel toks cur

/-- `Parser::print_statement`.  On a missing expression the source
calls `error(...)`, which exits the process; embedded as `none`. -/
def printStatementP : Nat → List Token → Nat → Option Stmt × Nat
  | 0, _, cur => (none, cur)
  | fuel + 1, toks, cur =>
    let e := expressionP fuel toks cur
    match e.1 with
    | some ex =>
      let c := consumeP toks e.2 .SEMICOLON
      match c.1 with
      | none => (none, c.2)
      | some _ => (some (.print ex), c.2)
    | none => (none, e.2)

/-- `Parser::expression_statement`. -/
def expressionStatementP : Nat → List Token → Nat → Option Stmt × Nat
  | 0, _, cur => (none, cur)
  | fuel + 1, toks, cur =>
    let e := expressionP fuel toks cur
    match e.1 with
    | none => (none, e.2)
    | some ex =>
      let c := consumeP toks e.2 .SEMICOLON
      match c.1 with
      | none => (none, c.2)
      | some _ => (some (.expression ex), c.2)

/-- The accumulation loop of `Parser::block`: gather declarations until
a close brace or end of input (`none` only on fuel exhaustion). -/
def blockLoopP : Nat → List Token → Nat → List Stmt →
    Option (List Stmt × Nat)
  | 0, _, _, _ => none
  | fuel + 1, toks, cur, acc =>
    if ¬(checkP toks cur .RIGHT_BRACE) ∧ ¬(isAtEndP toks cur) then
      let d := declarationP fuel toks cur
      match d.1 with
      | some stmt => blockLoopP fuel toks d.2 (acc ++ [stmt])
      | none => blockLoopP fuel toks d.2 acc
    else some (acc, cur)

/-- `Parser::block`.  A missing close brace reaches `error(...)`, which
exits the process in the source; embedded as `none`. -/
def blockP : Nat → List Token → Nat → Option (List Stmt) × Nat
  | 0, _, cur => (none, cur)
  | fuel + 1, toks, cur =>
    match blockLoopP fuel toks cur [] with
    | none => (none, cur)
    | some (acc, cur2) =>
      if isAtEndP toks cur2 then (none, cur2)
      else
        let m := matchTokenP toks cur2 [.RIGHT_BRACE]
        if m.1 then (some acc, m.2) else (none, m.2)

end

/-- The `while !self.is_at_end()` loop of `Parser::parse_statements`:
a declaration that yields no statement is silently skipped; `none`
models fuel exhaustion, i.e. an execution that never leaves the loop. -/
def parseStatementsLoopP : Nat → List Token → Nat → List Stmt →
    Option (List Stmt) × Nat
  | 0, _, cur, _ => (none, cur)
  | fuel + 1, toks, cur, acc =>
    if isAtEndP toks cur then (some acc, cur)
    else
      let d := declarationP fuel toks cur
      match d.1 with
      | some stmt => parseStatementsLoopP fuel toks d.2 (acc ++ [stmt])
      | none => parseStatementsLoopP fuel toks d.2 acc

/-- `Parser::parse_statements` from the start of the token sequence. -/
def parseStatementsP (fuel : Nat) (toks : List Token) :
    Option (List Stmt) × Nat :=
  parseStatementsLoopP fuel toks 0 []

/-- `Parser::parse_expression` from the start of the token sequence. -/
def parseExpressionP (fuel : Nat) (toks : List Token) :
    Option Expr × Nat :=
  expressionP fuel toks 0

/-- The token sequence the scanner produces for the one-statement
source text `";"`. -/
def semicolonToks : List Token :=
  [⟨.SEMICOLON, ";", none, 1⟩, ⟨.EOF, "", none, 1⟩]

theorem primaryP_semi : ∀ fuel, primaryP fuel semicolonToks 0 = (none, 0) := by
  intro fuel
  cases fuel with
  | zero => simp [primaryP]
  | succ fuel => simp only [primaryP]; rfl

theorem unaryP_semi : ∀ fuel, unaryP fuel semicolonToks 0 = (none, 0) := by
  intro fuel
  cases fuel with
  | zero => simp [unaryP]
  | succ fuel => simp only [unaryP]; exact primaryP_semi fuel

theorem factorLoopP_semi :
    ∀ fuel, factorLoopP fuel semicolonToks none 0 = (none, 0) := by
  intro fuel
  cases fuel with
  | zero => simp [factorLoopP]
  | succ fuel => simp only [factorLoopP]; rfl

theorem factorP_semi : ∀ fuel, factorP fuel semicolonToks 0 = (none, 0) := by
  intro fuel
  cases fuel with
  | zero => simp [factorP]
  | succ fuel =>
    simp only [factorP, unaryP_semi fuel]
    exact factorLoopP_semi fuel

theorem termLoopP_semi :
    ∀ fuel, termLoopP fuel semicolonToks none 0 = (none, 0) := by
  intro fuel
  cases fuel with
  | zero => simp [termLoopP]
  | succ fuel => simp only [termLoopP]; rfl

theorem termP_semi : ∀ fuel, termP fuel semicolonToks 0 = (none, 0) := by
  intro fuel
  cases fuel with
  | zero => simp [termP]
  | succ fuel =>
    simp only [termP, factorP_semi fuel]
    exact termLoopP_semi fuel

theorem comparisonLoopP_semi :
    ∀ fuel, comparisonLoopP fuel semicolonToks none 0 = (none, 0) := by
  intro fuel
  cases fuel with
  | zero => simp [comparisonLoopP]
  | succ fuel => simp only [comparisonLoopP]; rfl

theorem comparisonP_semi :
    ∀ fuel, comparisonP fuel semicolonToks 0 = (none, 0) := by
  intro fuel
  cases fuel with
  | zero => simp [comparisonP]
  | succ fuel =>
    simp only [comparisonP, termP_semi fuel]
    exact comparisonLoopP_semi fuel

theorem equalityLoopP_semi :
    ∀ fuel, equalityLoopP fuel semicolonToks none 0 = (none, 0) := by
  intro fuel
  cases fuel with
  | zero => simp [equalityLoopP]
  | succ fuel => simp only [equalityLoopP]; rfl

theorem equalityP_semi :
    ∀ fuel, equalityP fuel semicolonToks 0 = (none, 0) := by
  intro fuel
  cases fuel with
  | zero => simp [equalityP]
  | succ fuel =>
    simp only [equalityP, comparisonP_semi fuel]
    exact equalityLoopP_semi fuel

theorem assignmentP_semi :
    ∀ fuel, assignmentP fuel semicolonToks 0 = (none, 0) := by
  intro fuel
  cases fuel with
  | zero => simp [assignmentP]
  | succ fuel =>
    simp only [assignmentP, equalityP_semi fuel]
    rfl

theorem expressionP_semi :
    ∀ fuel, expressionP fuel semicolonToks 0 = (none, 0) := by
  intro fuel
  cases fuel with
  | zero => simp [expressionP]
  | succ fuel => simp only [expressionP]; exact assignmentP_semi fuel

theorem expressionStatementP_semi :
    ∀ fuel, expressionStatementP fuel semicolonToks 0 = (none, 0) := by
  intro fuel
  cases fuel with
  | zero => simp [expressionStatementP]
  | succ fuel =>
    simp only [expressionStatementP, expressionP_semi fuel]

theorem statementP_semi :
    ∀ fuel, statementP fuel semicolonToks 0 = (none, 0) := by
  intro fuel
  cases fuel with
  | zero => simp [statementP]
  | succ fuel => simp only [statementP]; exact expressionStatementP_semi fuel

theorem declarationP_semi :
    ∀ fuel, declarationP fuel semicolonToks 0 = (none, 0) := by
  intro fuel
  cases fuel with
  | zero => simp [declarationP]
  | succ fuel => simp only [declarationP]; exact statementP_semi fuel

theorem parseStatementsLoopP_semi :
    ∀ fuel acc, parseStatementsLoopP fuel semicolonToks 0 acc = (none, 0) :=
  by
  intro fuel
  induction fuel with
  | zero => intro acc; simp [parseStatementsLoopP]
  | succ fuel ih =>
    intro acc
    simp only [parseStatementsLoopP, declarationP_semi fuel]
    exact ih acc

/-- C3 (code bug evidence): on the token sequence of the source text
`";"` — one semicolon, then the end marker — the `parse_statements`
loop of the parser never terminates: `declaration` returns no statement
and consumes no token, the loop repeats from the same position, and the
fuelled embedding exhausts every fuel bound without leaving the loop.
The claim's guaranteed abort-with-error behaviour therefore fails.
(The first conjunct ties the token sequence to scanning `";"`.) -/
theorem C3_parse_statements_diverges :
    scanTokens ";" = (semicolonToks, false) ∧
    ∀ fuel : Nat, (parseStatementsP fuel semicolonToks).1 = none := by
  constructor
  · have hstep : scanTokenStep ';' [] 1 =
        ([⟨.SEMICOLON, ";", none, 1⟩], [], 1, false) := rfl
    rw [scanTokens]
    show scanLoop [';'] 1 [] false = _
    simp only [scanLoop, hstep]
    rfl
  · intro fuel
    rw [parseStatementsP, parseStatementsLoopP_semi fuel []]

/-- The `RuntimeError` record of `src/interpreter.rs`. -/
structure RuntimeError where
  message : String
  line : Nat
deriving DecidableEq, Repr

/-- The `Environment` of `src/interpreter.rs`: a `HashMap` of bindings
(embedded as an association list with unique keys) and an optional
enclosing scope. -/
inductive Environment where
  | mk (values : List (String × LiteralValue))
       (enclosing : Option Environment)

/-- The binding map of the scope itself. -/
def Environment.values : Environment → List (String × LiteralValue)
  | .mk v _ => v

/-- The enclosing scope, if any. -/
def Environment.enclosing : Environment → Option Environment
  | .mk _ e => e

/-- Structural decidable equality for environment chains. -/
def envDecEq : (a b : Environment) → Decidable (a = b)
  | .mk v1 none, .mk v2 none =>
    if h : v1 = v2 then isTrue (by rw [h])
    else isFalse (by simp [h])
  | .mk _ none, .mk _ (some _) => isFalse (by simp)
  | .mk _ (some _), .mk _ none => isFalse (by simp)
  | .mk v1 (some e1), .mk v2 (some e2) =>
    if h : v1 = v2 then
      match envDecEq e1 e2 with
      | isTrue he => isTrue (by rw [h, he])
      | isFalse he => isFalse (by simp [h, he])
    else isFalse (by simp [h])

instance : DecidableEq Environment := envDecEq

/-- `HashMap::insert`: replace the binding when the key is present,
add it otherwise. -/
def insertAssoc {α : Type} :
    List (String × α) → String → α → List (String × α)
  | [], key, v => [(key, v)]
  | (k, v0) :: rest, key, v =>
    if k = key then (key, v) :: rest
    else (k, v0) :: insertAssoc rest key v

/-- `HashMap::contains_key`. -/
def containsAssoc {α : Type} (l : List (String × α)) (key : String) :
    Bool :=
  (lookupAssoc l key).isSome

/-- The text of `format!` in `Environment::get`/`assign`:
`Undefined variable '<name>'.`. -/
def undefinedMsg (name : String) : String :=
  "Undefined variable " ++ squote ++ name ++ squote ++ "."

/-- `Environment::define`: insert/overwrite in the current scope only. -/
def envDefine : Environment → String → LiteralValue → Environment
  | .mk values enclosing, name, value =>
    .mk (insertAssoc values name value) enclosing

/-- `Environment::get`: current scope first, then the enclosing chain;
"undefined variable" with the given line when the chain is exhausted. -/
def envGet : Environment → String → Nat → Except RuntimeError LiteralValue
  | .mk values none, name, line =>
    match lookupAssoc values name with
    | some v => .ok v
    | none => .error ⟨undefinedMsg name, line⟩
  | .mk values (some e), name, line =>
    match lookupAssoc values name with
    | some v => .ok v
    | none => envGet e name line

/-- `Environment::assign`: mutate the innermost scope that already
declares the name; error (and no mutation anywhere) when none does. -/
def envAssign : Environment → String → LiteralValue → Nat →
    (Except RuntimeError Unit) × Environment
  | .mk values none, name, value, line =>
    if containsAssoc values name then
      (.ok (), .mk (insertAssoc values name value) none)
    else (.error ⟨undefinedMsg name, line⟩, .mk values none)
  | .mk values (some e), name, value, line =>
    if containsAssoc values name then
      (.ok (), .mk (insertAssoc values name value) (some e))
    else
      let r := envAssign e name value line
      (r.1, .mk values (some r.2))

/-- `Interpreter::literal_to_string`, the runtime-output renderer used
by `print`: whole numbers go through the saturating `as i64` cast and
integer formatting, others through `to_string`. -/
def literal_to_string (value : LiteralValue) : String :=
  match value with
  | .StringLiteral s => s
  | .NumberLiteral n =>
    if ratFract n = 0 then intDecString (ratToInt64Sat n)
    else ratToDecString n
  | .BooleanLiteral b => if b then "true" else "false"
  | .Nil => "nil"

/-- `Interpreter::is_truthy`. -/
def is_truthy : LiteralValue → Bool
  | .Nil => false
  | .BooleanLiteral b => b
  | _ => true

/-- `Interpreter::expect_number_literal`. -/
def expect_number_literal (value : LiteralValue) (line : Nat) :
    Except RuntimeError ℚ :=
  match value with
  | .NumberLiteral n => .ok n
  | _ => .error ⟨"Operand must be a number.", line⟩

/-- The operator dispatch of `Interpreter::visit_binary`, applied after
both operands have been evaluated. -/
def visit_binary_op (lv : LiteralValue) (operator : Token)
    (rv : LiteralValue) : Except RuntimeError LiteralValue :=
  match operator.token_type with
  | .PLUS =>
    match lv, rv with
    | .StringLiteral a, .StringLiteral b => .ok (.StringLiteral (a ++ b))
    | .NumberLiteral a, .NumberLiteral b => .ok (.NumberLiteral (a + b))
    | _, _ =>
      .error ⟨"Operands must be two numbers or two strings.",
        operator.line⟩
  | .MINUS => do
    let a ← expect_number_literal lv operator.line
    let b ← expect_number_literal rv operator.line
    return .NumberLiteral (a - b)
  | .STAR => do
    let a ← expect_number_literal lv operator.line
    let b ← expect_number_literal rv operator.line
    return .NumberLiteral (a * b)
  | .SLASH => do
    let a ← expect_number_literal lv operator.line
    let b ← expect_number_literal rv operator.line
    if b = 0 then
      throw ⟨"Division by zero.", operator.line⟩
    return .NumberLiteral (a / b)
  | .GREATER => do
    let a ← expect_number_literal lv operator.line
    let b ← expect_number_literal rv operator.line
    return .BooleanLiteral (decide (a > b))
  | .GREATER_EQUAL => do
    let a ← expect_number_literal lv operator.line
    let b ← expect_number_literal rv operator.line
    return .BooleanLiteral (decide (a ≥ b))
  | .LESS => do
    let a ← expect_number_literal lv operator.line
    let b ← expect_number_literal rv operator.line
    return .BooleanLiteral (decide (a < b))
  | .LESS_EQUAL => do
    let a ← expect_number_literal lv operator.line
    let b ← expect_number_literal rv operator.line
    return .BooleanLiteral (decide (a ≤ b))
  | .EQUAL_EQUAL => .ok (.BooleanLiteral (decide (lv = rv)))
  | .BANG_EQUAL => .ok (.BooleanLiteral (!decide (lv = rv)))
  | _ =>
    .error ⟨"Unknown operator: " ++ operator.lexeme, operator.line⟩

/-- `Interpreter::evaluate` (with `visit_literal`, `visit_grouping`,
`visit_unary` and the operand evaluation of `visit_binary` inlined):
returns the result next to the possibly mutated environment — only
`Assign` mutates it. -/
def evaluate : Environment → Expr → (Except RuntimeError LiteralValue) × Environment
  | env, .literal v => (.ok v, env)
  | env, .assign name value =>
    let r := evaluate env value
    match r.1 with
    | .error e => (.error e, r.2)
    | .ok v =>
      let a := envAssign r.2 name.lexeme v name.line
      match a.1 with
      | .error e => (.error e, a.2)
      | .ok _ => (.ok v, a.2)
  | env, .variableExpr name => (envGet env name.lexeme name.line, env)
  | env, .unary operator right =>
    let r := evaluate env right
    match r.1 with
    | .error e => (.error e, r.2)
    | .ok rv =>
      match operator.token_type with
      | .MINUS =>
        match rv with
        | .NumberLiteral n => (.ok (.NumberLiteral (-n)), r.2)
        | _ =>
          (.error ⟨"Operand must be a number.", operator.line⟩, r.2)
      | .BANG => (.ok (.BooleanLiteral (!is_truthy rv)), r.2)
      | _ =>
        (.error ⟨"Unknown unary operator: " ++ operator.lexeme,
          operator.line⟩, r.2)
  | env, .binary left operator right =>
    let l := evaluate env left
    match l.1 with
    | .error e => (.error e, l.2)
    | .ok lv =>
      let r := evaluate l.2 right
      match r.1 with
      | .error e => (.error e, r.2)
      | .ok rv => (visit_binary_op lv operator rv, r.2)
  | env, .grouping e => evaluate env e

/-- The interpreter state: its environment and the `println!` output
collected so far. -/
structure InterpState where
  environment : Environment
  output : List String
deriving DecidableEq

mutual

/-- `Interpreter::execute`. -/
def execute : InterpState → Stmt → (Except RuntimeError Unit) × InterpState
  | st, .print e =>
    let r := evaluate st.environment e
    match r.1 with
    | .error err => (.error err, ⟨r.2, st.output⟩)
    | .ok v =>
      (.ok (), ⟨r.2, st.output ++ [literal_to_string v ++ "\n"]⟩)
  | st, .expression e =>
    let r := evaluate st.environment e
    match r.1 with
    | .error err => (.error err, ⟨r.2, st.output⟩)
    | .ok _ => (.ok (), ⟨r.2, st.output⟩)
  | st, .var name initializer =>
    match initializer with
    | some e =>
      let r := evaluate st.environment e
      match r.1 with
      | .error err => (.error err, ⟨r.2, st.output⟩)
      | .ok v => (.ok (), ⟨envDefine r.2 name.lexeme v, st.output⟩)
    | none =>
      (.ok (), ⟨envDefine st.environment name.lexeme .Nil, st.output⟩)
  | st, .block statements => executeBlock st statements
termination_by st stmt => (sizeOf stmt, 0)

/-- `Interpreter::execute_block`.  The source's second parameter is
unused there; the method replaces the current environment with a fresh
child whose enclosing scope is a *clone* of the current one, runs the
block, then merges every binding of the child scope into the saved
`previous` environment with `define` and restores it.  (Assignments the
block made through the chain land in the discarded clone.) -/
def executeBlock : InterpState → List Stmt →
    (Except RuntimeError Unit) × InterpState
  | st, statements =>
    let newEnv : Environment := .mk [] (some st.environment)
    let previous := st.environment
    let r := interpret ⟨newEnv, st.output⟩ statements
    let merged := r.2.environment.values.foldl
      (fun acc kv => envDefine acc kv.1 kv.2) previous
    (r.1, ⟨merged, r.2.output⟩)
termination_by st statements => (sizeOf statements, 1)

/-- `Interpreter::interpret`: execute statements in order, stopping at
the first runtime error. -/
def interpret : InterpState → List Stmt →
    (Except RuntimeError Unit) × InterpState
  | st, [] => (.ok (), st)
  | st, stmt :: rest =>
    let r := execute st stmt
    match r.1 with
    | .error err => (.error err, r.2)
    | .ok _ => interpret r.2 rest
termination_by st statements => (sizeOf statements, 0)

end

/-- The interpreter's starting state: `Interpreter::new` (one global
scope, no bindings) and no output. -/
def initialState : InterpState := ⟨.mk [] none, []⟩

theorem ratTrunc_intCast (i : Int) : ratTrunc (i : ℚ) = i := by
  simp [ratTrunc, Rat.num_intCast, Rat.den_intCast, Int.tdiv_one]

theorem ratFract_intCast (i : Int) : ratFract (i : ℚ) = 0 := by
  simp [ratFract, ratTrunc_intCast]

theorem den_one_of_ratFract_eq_zero (q : ℚ) (h : ratFract q = 0) :
    q.den = 1 := by
  have hq : q = ((ratTrunc q : Int) : ℚ) := by
    have := sub_eq_zero.mp h
    linarith [this]
  rw [hq, Rat.den_intCast]

theorem intCast_num_of_ratFract_eq_zero (q : ℚ) (h : ratFract q = 0) :
    ((q.num : Int) : ℚ) = q :=
  (Rat.den_eq_one_iff q).mp (den_one_of_ratFract_eq_zero q h)

/-- Whole numbers in the `i64` range print as their plain integer
decimal text through the runtime renderer. -/
theorem literal_to_string_intCast (i : Int) (h1 : -(2 ^ 63) ≤ i)
    (h2 : i ≤ 2 ^ 63 - 1) :
    literal_to_string (.NumberLiteral (i : ℚ)) = intDecString i := by
  rw [literal_to_string]
  rw [if_pos (ratFract_intCast i)]
  congr 1
  rw [ratToInt64Sat, ratTrunc_intCast]
  omega

/-- Whole numbers at or above `2^63` print as the saturated `i64`
maximum through the runtime renderer. -/
theorem literal_to_string_sat_top (i : Int) (h : 2 ^ 63 ≤ i) :
    literal_to_string (.NumberLiteral (i : ℚ)) =
      intDecString (2 ^ 63 - 1) := by
  rw [literal_to_string]
  rw [if_pos (ratFract_intCast i)]
  congr 1
  rw [ratToInt64Sat, ratTrunc_intCast]
  omega

/-- Whole numbers at or below `-(2^63)` print as the saturated `i64`
minimum through the runtime renderer. -/
theorem literal_to_string_sat_bot (i : Int) (h : i ≤ -(2 ^ 63)) :
    literal_to_string (.NumberLiteral (i : ℚ)) =
      intDecString (-(2 ^ 63)) := by
  rw [literal_to_string]
  rw [if_pos (ratFract_intCast i)]
  congr 1
  rw [ratToInt64Sat, ratTrunc_intCast]
  omega

/-- The identifier token `a` (line 1). -/
def identA : Token := ⟨.IDENTIFIER, "a", none, 1⟩

/-- The AST of `var a = 1; { var a = 2; } print a;`. -/
def progShadow : List Stmt :=
  [.var identA (some (.literal (.NumberLiteral 1))),
   .block [.var identA (some (.literal (.NumberLiteral 2)))],
   .print (.variableExpr identA)]

/-- The AST of `var a = 1; { a = 2; } print a;`. -/
def progAssign : List Stmt :=
  [.var identA (some (.literal (.NumberLiteral 1))),
   .block [.expression (.assign identA (.literal (.NumberLiteral 2)))],
   .print (.variableExpr identA)]

theorem literal_to_string_one : literal_to_string (.NumberLiteral 1) = "1"
    := by
  rw [show (1 : ℚ) = ((1 : Int) : ℚ) by norm_num]
  rw [literal_to_string_intCast 1 (by decide) (by decide)]
  decide

theorem literal_to_string_two : literal_to_string (.NumberLiteral 2) = "2"
    := by
  rw [show (2 : ℚ) = ((2 : Int) : ℚ) by norm_num]
  rw [literal_to_string_intCast 2 (by decide) (by decide)]
  decide

/-- C1 (code bug evidence): running the embedded interpreter on the AST
of `var a = 1; { var a = 2; } print a;` prints `2`, not the `1` the
specification demands — `execute_block` merges the block-local
declaration of `a` back into the enclosing scope on exit. -/
theorem C1_block_declaration_leaks :
    (interpret initialState progShadow).2.output = ["2\n"] ∧
    ("2\n" : String) ≠ "1\n" := by
  constructor
  · simp [progShadow, interpret, execute, executeBlock, evaluate,
      initialState, envDefine, envGet, lookupAssoc, insertAssoc,
      containsAssoc, Environment.values, identA, literal_to_string_two]
  · decide

/-- C2 (code bug evidence): running the embedded interpreter on the AST
of `var a = 1; { a = 2; } print a;` prints `1`, not the `2` the
specification demands — the assignment inside the block walks into the
*clone* of the enclosing environment that `execute_block` created, and
the clone is discarded when the block exits. -/
theorem C2_block_assignment_lost :
    (interpret initialState progAssign).2.output = ["1\n"] ∧
    ("1\n" : String) ≠ "2\n" := by
  constructor
  · simp [progAssign, interpret, execute, executeBlock, evaluate,
      initialState, envDefine, envGet, envAssign, lookupAssoc,
      insertAssoc, containsAssoc, Environment.values, identA,
      literal_to_string_one]
  · decide

/-- C6: Binary `+` concatenates two Strings, adds two Numbers, and
fails with exactly "Operands must be two numbers or two strings." on
every other pairing, leaving the environment untouched; in particular
`1 + 2` gives Number 3, `"a" + "b"` gives String "ab", and `1 + "b"`
is a RuntimeError with that message. -/
theorem C6_plus_semantics :
    (∀ (env : Environment) (line : Nat) (lv rv : LiteralValue),
      evaluate env (.binary (.literal lv) ⟨.PLUS, "+", none, line⟩
          (.literal rv)) =
        ((match lv, rv with
          | .StringLiteral a, .StringLiteral b =>
            .ok (.StringLiteral (a ++ b))
          | .NumberLiteral a, .NumberLiteral b =>
            .ok (.NumberLiteral (a + b))
          | _, _ =>
            .error ⟨"Operands must be two numbers or two strings.",
              line⟩), env)) ∧
    evaluate (.mk [] none)
      (.binary (.literal (.NumberLiteral 1)) ⟨.PLUS, "+", none, 1⟩
        (.literal (.NumberLiteral 2))) =
      (.ok (.NumberLiteral 3), .mk [] none) ∧
    evaluate (.mk [] none)
      (.binary (.literal (.StringLiteral "a")) ⟨.PLUS, "+", none, 1⟩
        (.literal (.StringLiteral "b"))) =
      (.ok (.StringLiteral "ab"), .mk [] none) ∧
    evaluate (.mk [] none)
      (.binary (.literal (.NumberLiteral 1)) ⟨.PLUS, "+", none, 1⟩
        (.literal (.StringLiteral "b"))) =
      (.error ⟨"Operands must be two numbers or two strings.", 1⟩,
        .mk [] none) := by
  refine ⟨fun env line lv rv => ?_, ?_, ?_, ?_⟩
  · cases lv <;> cases rv <;> rfl
  · simp [evaluate, visit_binary_op]
    norm_num
  · rfl
  · rfl

/-- C7: Binary `/` on two Numbers fails with exactly "Division by
zero." when the right operand is zero (before any quotient exists) and
divides otherwise; for `-`, `*` and `/` every non-Number operand fails
with "Operand must be a number."; in particular `1 / 0` is a
RuntimeError with the division message. -/
theorem C7_division_and_number_operands :
    (∀ (env : Environment) (line : Nat) (lv rv : LiteralValue),
      evaluate env (.binary (.literal lv) ⟨.SLASH, "/", none, line⟩
          (.literal rv)) =
        ((match lv, rv with
          | .NumberLiteral a, .NumberLiteral b =>
            if b = 0 then .error ⟨"Division by zero.", line⟩
            else .ok (.NumberLiteral (a / b))
          | _, _ => .error ⟨"Operand must be a number.", line⟩), env)) ∧
    (∀ (env : Environment) (line : Nat) (lv rv : LiteralValue),
      evaluate env (.binary (.literal lv) ⟨.MINUS, "-", none, line⟩
          (.literal rv)) =
        ((match lv, rv with
          | .NumberLiteral a, .NumberLiteral b =>
            .ok (.NumberLiteral (a - b))
          | _, _ => .error ⟨"Operand must be a number.", line⟩), env)) ∧
    (∀ (env : Environment) (line : Nat) (lv rv : LiteralValue),
      evaluate env (.binary (.literal lv) ⟨.STAR, "*", none, line⟩
          (.literal rv)) =
        ((match lv, rv with
          | .NumberLiteral a, .NumberLiteral b =>
            .ok (.NumberLiteral (a * b))
          | _, _ => .error ⟨"Operand must be a number.", line⟩), env)) ∧
    evaluate (.mk [] none)
      (.binary (.literal (.NumberLiteral 1)) ⟨.SLASH, "/", none, 1⟩
        (.literal (.NumberLiteral 0))) =
      (.error ⟨"Division by zero.", 1⟩, .mk [] none) := by
  refine ⟨fun env line lv rv => ?_, fun env line lv rv => ?_,
    fun env line lv rv => ?_, ?_⟩
  · cases lv <;> cases rv <;> rfl
  · cases lv <;> cases rv <;> rfl
  · cases lv <;> cases rv <;> rfl
  · simp only [evaluate, visit_binary_op, expect_number_literal]
    norm_num
    rfl

/-- Whether an expression tree contains no `Assign` node anywhere. -/
def noAssign : Expr → Bool
  | .assign _ _ => false
  | .binary l _ r => noAssign l && noAssign r
  | .grouping e => noAssign e
  | .literal _ => true
  | .unary _ r => noAssign r
  | .variableExpr _ => true

/-- C10: evaluating an expression without `Assign` nodes leaves the
environment chain exactly as it was, whether evaluation succeeds or
raises a runtime error. -/
theorem C10_no_assign_preserves_env (e : Expr) :
    ∀ env : Environment, noAssign e = true → (evaluate env e).2 = env := by
  induction e with
  | assign name value ih =>
    intro env h
    simp [noAssign] at h
  | binary l op r ihl ihr =>
    intro env h
    simp only [noAssign, Bool.and_eq_true] at h
    rcases h1 : evaluate env l with ⟨resl, env1⟩
    have hl : env1 = env := by
      have := ihl env h.1
      rw [h1] at this
      exact this
    cases resl with
    | error err => simp [evaluate, h1, hl]
    | ok lv =>
      subst hl
      rcases h2 : evaluate env1 r with ⟨resr, env2⟩
      have hr : env2 = env1 := by
        have := ihr env1 h.2
        rw [h2] at this
        exact this
      cases resr <;> simp [evaluate, h1, h2, hr]
  | grouping inner ih =>
    intro env h
    simp only [noAssign] at h
    simpa [evaluate] using ih env h
  | literal v => intro env h; rfl
  | unary op r ih =>
    intro env h
    simp only [noAssign] at h
    rcases h1 : evaluate env r with ⟨res, env1⟩
    have hr : env1 = env := by
      have := ih env h
      rw [h1] at this
      exact this
    cases res with
    | error err => simp [evaluate, h1, hr]
    | ok rv =>
      simp only [evaluate, h1]
      rcases op with ⟨tt, lex, lit, line⟩
      cases tt <;> cases rv <;> simp [hr]
  | variableExpr name => intro env h; rfl

/-- Witness for C10 at a concrete assignment-free expression and
concrete environment. -/
theorem C10_no_assign_preserves_env_witness :
    noAssign (.binary (.literal (.NumberLiteral 1)) ⟨.PLUS, "+", none, 1⟩
      (.literal (.NumberLiteral 2))) = true ∧
    (evaluate (.mk [("x", .Nil)] none)
      (.binary (.literal (.NumberLiteral 1)) ⟨.PLUS, "+", none, 1⟩
        (.literal (.NumberLiteral 2)))).2 = .mk [("x", .Nil)] none :=
  ⟨by decide,
   C10_no_assign_preserves_env _ (.mk [("x", .Nil)] none) (by decide)⟩

/-- Modelled from the spec's words in section 4.3: the scope chain as a
list of binding maps, innermost first. -/
def envToList : Environment → List (List (String × LiteralValue))
  | .mk values none => [values]
  | .mk values (some e) => values :: envToList e

/-- Modelled from the spec's words for `get`: the value bound by the
innermost scope of the chain that binds the name. -/
def chainLookup : List (List (String × LiteralValue)) → String →
    Option LiteralValue
  | [], _ => none
  | scope :: rest, name =>
    match lookupAssoc scope name with
    | some v => some v
    | none => chainLookup rest name

/-- Modelled from the spec's words for `assign`: update the binding in
the first scope of the chain that already declares the name, leave the
chain unchanged when none does. -/
def chainAssign : List (List (String × LiteralValue)) → String →
    LiteralValue → List (List (String × LiteralValue))
  | [], _, _ => []
  | scope :: rest, name, v =>
    if containsAssoc scope name then insertAssoc scope name v :: rest
    else scope :: chainAssign rest name v

/-- C5: `get` returns the innermost binding of the chain and fails with
the "undefined variable" error carrying the given line when no scope
binds the name; `assign` updates exactly the first declaring scope,
never implicitly creates a binding, succeeds iff some scope declares
the name, and leaves the whole chain untouched on failure. -/
theorem C5_env_get_assign :
    ∀ (env : Environment) (name : String) (line : Nat)
      (v : LiteralValue),
      (envGet env name line =
        (match chainLookup (envToList env) name with
         | some value => .ok value
         | none => .error ⟨undefinedMsg name, line⟩)) ∧
      envToList (envAssign env name v line).2 =
        chainAssign (envToList env) name v ∧
      ((envAssign env name v line).1 =
        if (envToList env).any (fun scope => containsAssoc scope name)
        then .ok () else .error ⟨undefinedMsg name, line⟩) ∧
      ((envToList env).any (fun scope => containsAssoc scope name) =
          false → (envAssign env name v line).2 = env)
  | .mk values none, name, line, v => by
    refine ⟨?_, ?_, ?_, ?_⟩
    · cases h : lookupAssoc values name <;>
        simp [envGet, chainLookup, envToList, h]
    · by_cases hc : containsAssoc values name <;>
        simp [envAssign, envToList, chainAssign, hc]
    · by_cases hc : containsAssoc values name <;>
        simp [envAssign, envToList, hc]
    · intro hnone
      simp only [envToList, List.any_cons, List.any_nil,
        Bool.or_false] at hnone
      simp [envAssign, hnone]
  | .mk values (some e), name, line, v => by
    have ih := C5_env_get_assign e name line v
    refine ⟨?_, ?_, ?_, ?_⟩
    · cases h : lookupAssoc values name with
      | some w => simp [envGet, chainLookup, envToList, h]
      | none =>
        simp only [envGet, chainLookup, envToList, h]
        exact ih.1
    · by_cases hc : containsAssoc values name
      · simp [envAssign, envToList, chainAssign, hc]
      · simp only [envAssign, hc, if_neg, ite_false, Bool.false_eq_true,
          envToList, chainAssign]
        rw [ih.2.1]
    · by_cases hc : containsAssoc values name
      · simp [envAssign, envToList, hc]
      · simp only [envAssign, hc, ite_false, Bool.false_eq_true,
          envToList, List.any_cons, Bool.false_or]
        exact ih.2.2.1
    · intro hnone
      simp only [envToList, List.any_cons, Bool.or_eq_false_iff]
        at hnone
      simp only [envAssign, hnone.1, Bool.false_eq_true, ite_false]
      rw [ih.2.2.2 hnone.2]

/-- Witness for C5 at concrete chains: a present name resolves, and an
absent name leaves a two-scope chain untouched. -/
theorem C5_env_get_assign_witness :
    envGet (.mk [("a", .Nil)] none) "a" 3 = .ok .Nil ∧
    ((envToList (.mk [] (some (.mk [("a", .Nil)] none)))).any
        (fun scope => containsAssoc scope "b") = false) ∧
    (envAssign (.mk [] (some (.mk [("a", .Nil)] none))) "b" .Nil 3).2 =
      .mk [] (some (.mk [("a", .Nil)] none)) := by
  refine ⟨?_, by decide, ?_⟩
  · rw [(C5_env_get_assign (.mk [("a", .Nil)] none) "a" 3 .Nil).1]
    rfl
  · exact (C5_env_get_assign (.mk [] (some (.mk [("a", .Nil)] none)))
      "b" 3 .Nil).2.2.2 (by decide)

/-- C4 counterexample: `2^63` is a whole number (an exactly
representable `f64`), but the runtime renderer prints the saturated
`i64` maximum for it, not its plain integer decimal text. -/
theorem C4_renderer_counterexample :
    literal_to_string (.NumberLiteral 9223372036854775808) =
      "9223372036854775807" ∧
    literal_to_string (.NumberLiteral 9223372036854775808) ≠
      intDecString 9223372036854775808 := by
  have hcast : (9223372036854775808 : ℚ) =
      ((9223372036854775808 : Int) : ℚ) := by norm_num
  have h : literal_to_string (.NumberLiteral 9223372036854775808) =
      intDecString (2 ^ 63 - 1) := by
    rw [hcast]
    exact literal_to_string_sat_top 9223372036854775808 (by norm_num)
  constructor
  · rw [h]; decide
  · rw [h]; decide

theorem digitChar_isDigit : ∀ d, d < 10 → (digitChar d).isDigit = true :=
  by decide

theorem digitVal_digitChar : ∀ d, d < 10 → digitVal (digitChar d) = d :=
  by decide

theorem parseNatFold_append (acc : Nat) (xs ys : List Char) :
    parseNatFold acc (xs ++ ys) = parseNatFold (parseNatFold acc xs) ys :=
  by
  induction xs generalizing acc with
  | nil => rfl
  | cons c t ih =>
    simp only [List.cons_append]
    rw [show parseNatFold acc (c :: (t ++ ys)) =
        parseNatFold (acc * 10 + digitVal c) (t ++ ys) from rfl]
    rw [show parseNatFold acc (c :: t) =
        parseNatFold (acc * 10 + digitVal c) t from rfl]
    exact ih _

theorem natDecCharsAux_isDigit :
    ∀ (f n : Nat) (c : Char), c ∈ natDecCharsAux f n →
      c.isDigit = true := by
  intro f
  induction f with
  | zero => intro n c h; simp [natDecCharsAux] at h
  | succ f ih =>
    intro n c h
    rw [show natDecCharsAux (f + 1) n =
        (if n = 0 then [] else
          natDecCharsAux f (n / 10) ++ [digitChar (n % 10)]) from rfl]
      at h
    split at h
    · simp at h
    · simp only [List.mem_append, List.mem_singleton] at h
      rcases h with h | h
      · exact ih _ c h
      · subst h
        exact digitChar_isDigit _ (Nat.mod_lt _ (by norm_num))

theorem parseNatFold_natDecCharsAux :
    ∀ (f n acc : Nat), n ≤ f →
      parseNatFold acc (natDecCharsAux f n) =
        acc * 10 ^ (natDecCharsAux f n).length + n := by
  intro f
  induction f with
  | zero =>
    intro n acc h
    have hn : n = 0 := Nat.le_zero.mp h
    subst hn
    rw [show natDecCharsAux 0 0 = [] from rfl]
    rw [show parseNatFold acc [] = acc from rfl]
    simp
  | succ f ih =>
    intro n acc h
    rw [show natDecCharsAux (f + 1) n =
        (if n = 0 then [] else
          natDecCharsAux f (n / 10) ++ [digitChar (n % 10)]) from rfl]
    split
    · next hn =>
      subst hn
      rw [show parseNatFold acc [] = acc from rfl]
      simp
    · next hn =>
      have hle : n / 10 ≤ f := by
        have h1 : n / 10 < n :=
          Nat.div_lt_self (Nat.pos_of_ne_zero hn) (by norm_num)
        omega
      rw [parseNatFold_append, ih _ acc hle]
      rw [show parseNatFold
            (acc * 10 ^ (natDecCharsAux f (n / 10)).length + n / 10)
            [digitChar (n % 10)] =
          (acc * 10 ^ (natDecCharsAux f (n / 10)).length + n / 10) * 10 +
            digitVal (digitChar (n % 10)) from rfl]
      rw [digitVal_digitChar _ (Nat.mod_lt _ (by norm_num))]
      simp only [List.length_append, List.length_singleton]
      rw [pow_succ]
      have hdm := Nat.div_add_mod n 10
      ring_nf
      omega

theorem natDecCharsAux_length_le :
    ∀ (f n j : Nat), n ≤ f → n < 10 ^ j →
      (natDecCharsAux f n).length ≤ j := by
  intro f
  induction f with
  | zero =>
    intro n j h hj
    have hn : n = 0 := Nat.le_zero.mp h
    subst hn
    rw [show natDecCharsAux 0 0 = [] from rfl]
    simp
  | succ f ih =>
    intro n j h hj
    rw [show natDecCharsAux (f + 1) n =
        (if n = 0 then [] else
          natDecCharsAux f (n / 10) ++ [digitChar (n % 10)]) from rfl]
    split
    · simp
    · next hn =>
      have hj1 : 1 ≤ j := by
        by_contra hc
        push_neg at hc
        interval_cases j
        omega
      have hle : n / 10 ≤ f := by
        have h1 : n / 10 < n :=
          Nat.div_lt_self (Nat.pos_of_ne_zero hn) (by norm_num)
        omega
      have hdiv : n / 10 < 10 ^ (j - 1) := by
        rw [Nat.div_lt_iff_lt_mul (by norm_num)]
        calc n < 10 ^ j := hj
        _ = 10 ^ (j - 1) * 10 := by
            rw [← pow_succ]
            congr 1
            omega
      have := ih (n / 10) (j - 1) hle hdiv
      simp only [List.length_append, List.length_singleton]
      omega

theorem natDecChars_isDigit (n : Nat) :
    ∀ c ∈ natDecChars n, c.isDigit = true := by
  intro c h
  rw [natDecChars] at h
  split at h
  · simp at h
    subst h
    decide
  · exact natDecCharsAux_isDigit n n c h

theorem natDecChars_ne_nil (n : Nat) : natDecChars n ≠ [] := by
  rw [natDecChars]
  split
  · simp
  · next hn =>
    cases hm : natDecCharsAux n n with
    | nil =>
      exfalso
      have := parseNatFold_natDecCharsAux n n 0 (le_refl n)
      rw [hm] at this
      rw [show parseNatFold 0 ([] : List Char) = 0 from rfl] at this
      simp at this
      exact hn this.symm
    | cons a b => simp

theorem parseNatFold_natDecChars (n : Nat) :
    parseNatFold 0 (natDecChars n) = n := by
  rw [natDecChars]
  split
  · next h => subst h; decide
  · have := parseNatFold_natDecCharsAux n n 0 (le_refl n)
    simpa using this

theorem natDecChars_length_le (n j : Nat) (h1 : 1 ≤ j)
    (h : n < 10 ^ j) : (natDecChars n).length ≤ j := by
  rw [natDecChars]
  split
  · simpa using h1
  · exact natDecCharsAux_length_le n n j (le_refl n) h

theorem spanP_append (p : Char → Bool) :
    ∀ (xs rest : List Char), (∀ c ∈ xs, p c = true) →
      (∀ h, rest.head? = some h → p h = false) →
      spanP p (xs ++ rest) = (xs, rest) := by
  intro xs
  induction xs with
  | nil =>
    intro rest hx hr
    cases rest with
    | nil => rfl
    | cons h t =>
      have := hr h rfl
      simp [spanP, this]
  | cons c t ih =>
    intro rest hx hr
    have hc : p c = true := hx c (by simp)
    simp only [List.cons_append, spanP, hc, if_pos, if_true,
      List.append_eq, ih rest (fun d hd => hx d (by simp [hd])) hr]

theorem spanP_all (p : Char → Bool) (xs : List Char)
    (hx : ∀ c ∈ xs, p c = true) : spanP p xs = (xs, []) := by
  have := spanP_append p xs [] hx (by simp)
  simpa using this

theorem spanP_take_all (p : Char → Bool) :
    ∀ (cs t r : List Char), spanP p cs = (t, r) →
      (∀ c ∈ t, p c = true) ∧ cs = t ++ r := by
  intro cs
  induction cs with
  | nil =>
    intro t r h
    simp only [spanP, Prod.mk.injEq] at h
    simp [← h.1, ← h.2]
  | cons c cs ih =>
    intro t r h
    simp only [spanP] at h
    split at h
    · next hc =>
      simp only [Prod.mk.injEq] at h
      obtain ⟨ht, hr⟩ := h
      obtain ⟨h1, h2⟩ := ih (spanP p cs).1 (spanP p cs).2 rfl
      subst ht
      subst hr
      refine ⟨?_, by simp [← h2]⟩
      intro d hd
      rcases List.mem_cons.mp hd with h | h
      · subst h; exact hc
      · exact h1 d h
    · simp only [Prod.mk.injEq] at h
      simp [← h.1, ← h.2]

theorem parseF64Chars_int_form (intDs : List Char)
    (hne : intDs ≠ []) (hdig : ∀ c ∈ intDs, c.isDigit = true) :
    parseF64Chars intDs = some ((parseNatFold 0 intDs : Nat) : ℚ) := by
  cases intDs with
  | nil => exact absurd rfl hne
  | cons c t =>
    have hc : c.isDigit = true := hdig c (by simp)
    have hcm : ¬(c = '-') := by
      intro h
      subst h
      simp at hc
    rw [parseF64Chars]
    rw [if_neg hcm]
    rw [parseF64Unsigned]
    simp only [spanP_all Char.isDigit (c :: t) hdig]
    simp

theorem parseF64Chars_frac_form (intDs fracDs : List Char)
    (hne : intDs ≠ []) (hdig : ∀ c ∈ intDs, c.isDigit = true)
    (hfdig : ∀ c ∈ fracDs, c.isDigit = true) :
    parseF64Chars (intDs ++ '.' :: fracDs) =
      some (((parseNatFold 0 intDs : Nat) : ℚ) +
        ((parseNatFold 0 fracDs : Nat) : ℚ) / (10 : ℚ) ^ fracDs.length)
      := by
  cases intDs with
  | nil => exact absurd rfl hne
  | cons c t =>
    have hc : c.isDigit = true := hdig c (by simp)
    have hcm : ¬(c = '-') := by
      intro h
      subst h
      simp at hc
    rw [show (c :: t) ++ '.' :: fracDs = c :: (t ++ '.' :: fracDs)
      from rfl]
    rw [parseF64Chars]
    rw [if_neg hcm]
    rw [parseF64Unsigned]
    have hspan : spanP Char.isDigit (c :: (t ++ '.' :: fracDs)) =
        (c :: t, '.' :: fracDs) := by
      rw [show c :: (t ++ '.' :: fracDs) = (c :: t) ++ '.' :: fracDs
        from rfl]
      exact spanP_append Char.isDigit (c :: t) ('.' :: fracDs) hdig
        (by intro h hh; simp at hh; subst hh; decide)
    simp only [hspan]
    simp only [spanP_all Char.isDigit fracDs hfdig]
    simp

theorem parseNatFold_replicate_zero :
    ∀ (k : Nat) (l : List Char),
      parseNatFold 0 (List.replicate k '0' ++ l) = parseNatFold 0 l := by
  intro k
  induction k with
  | zero => intro l; rfl
  | succ k ih =>
    intro l
    rw [List.replicate_succ, List.cons_append]
    rw [show parseNatFold 0 ('0' :: (List.replicate k '0' ++ l)) =
        parseNatFold (0 * 10 + digitVal '0') (List.replicate k '0' ++ l)
      from rfl]
    rw [show (0 * 10 + digitVal '0') = 0 from by decide]
    exact ih l

theorem parseNatFold_all_zero :
    ∀ (l : List Char), (∀ c ∈ l, c = '0') → parseNatFold 0 l = 0 := by
  intro l
  induction l with
  | nil => intro h; rfl
  | cons c t ih =>
    intro h
    have hc : c = '0' := h c (by simp)
    subst hc
    rw [show parseNatFold 0 ('0' :: t) =
        parseNatFold (0 * 10 + digitVal '0') t from rfl]
    rw [show (0 * 10 + digitVal '0') = 0 from by decide]
    exact ih (fun d hd => h d (by simp [hd]))

/-- A divisor of a power of ten divides the power of ten with its own
exponent (used to show the search in `ratToDecCharsNN` succeeds). -/
theorem dvd_pow_ten_self : ∀ d : Nat, (∃ f, d ∣ 10 ^ f) → d ∣ 10 ^ d := by
  intro d
  induction d using Nat.strong_induction_on with
  | _ d ih =>
    rintro ⟨f, hf⟩
    rcases Nat.eq_zero_or_pos d with hd0 | hdpos
    · subst hd0
      exact absurd (Nat.eq_zero_of_zero_dvd hf)
        (pow_ne_zero f (by norm_num))
    by_cases hd1 : d = 1
    · subst hd1; simp
    by_cases h2 : 2 ∣ d
    · obtain ⟨e, he⟩ := h2
      have hepos : 0 < e := by omega
      have helt : e < d := by omega
      have hed : e ∣ d := Dvd.intro_left 2 he.symm
      obtain ⟨cc, hcc⟩ := ih e helt ⟨f, dvd_trans hed hf⟩
      have h1 : d ∣ 10 ^ (e + 1) := by
        refine ⟨5 * cc, ?_⟩
        rw [pow_succ, hcc, he]
        ring
      exact dvd_trans h1 (pow_dvd_pow 10 (by omega))
    by_cases h5 : 5 ∣ d
    · obtain ⟨e, he⟩ := h5
      have hepos : 0 < e := by omega
      have helt : e < d := by omega
      have hed : e ∣ d := Dvd.intro_left 5 he.symm
      obtain ⟨cc, hcc⟩ := ih e helt ⟨f, dvd_trans hed hf⟩
      have h1 : d ∣ 10 ^ (e + 1) := by
        refine ⟨2 * cc, ?_⟩
        rw [pow_succ, hcc, he]
        ring
      exact dvd_trans h1 (pow_dvd_pow 10 (by omega))
    have hcop2 : Nat.Coprime 2 d :=
      (Nat.Prime.coprime_iff_not_dvd Nat.prime_two).mpr h2
    have hcop5 : Nat.Coprime 5 d :=
      (Nat.Prime.coprime_iff_not_dvd Nat.prime_five).mpr h5
    have hcop10 : Nat.Coprime 10 d := by
      rw [show (10 : Nat) = 2 * 5 from rfl]
      exact Nat.Coprime.mul hcop2 hcop5
    have hcopf : Nat.Coprime d (10 ^ f) :=
      Nat.Coprime.pow_right f (Nat.Coprime.symm hcop10)
    exact absurd (Nat.Coprime.eq_one_of_dvd hcopf hf) hd1

theorem parseF64Chars_ratToDecChars (q : ℚ) (h0 : 0 ≤ q) (j : Nat)
    (hdvd : q.den ∣ 10 ^ j) :
    parseF64Chars (ratToDecChars q) = some q := by
  rw [ratToDecChars, if_neg (not_lt.mpr h0)]
  have hsome : ((List.range (q.den + 1)).find?
      (fun k => decide (q.den ∣ 10 ^ k))).isSome = true := by
    refine List.find?_isSome.mpr ⟨q.den, by simp, ?_⟩
    simp only [decide_eq_true_eq]
    exact dvd_pow_ten_self q.den ⟨j, hdvd⟩
  obtain ⟨k, hk⟩ := Option.isSome_iff_exists.mp hsome
  have hkdvd : q.den ∣ 10 ^ k := by
    have := List.find?_some hk
    simpa using this
  have hcastnum : ((q.num.natAbs : Nat) : ℚ) = ((q.num : Int) : ℚ) := by
    rw [← Int.cast_natCast (R := ℚ)]
    rw [Int.natAbs_of_nonneg (Rat.num_nonneg.mpr h0)]
  simp only [ratToDecCharsNN, hk]
  by_cases hk0 : k = 0
  · subst hk0
    have hden1 : q.den = 1 := Nat.dvd_one.mp (by simpa using hkdvd)
    simp only [ite_true]
    rw [parseF64Chars_int_form (natDecChars q.num.natAbs)
      (natDecChars_ne_nil _) (natDecChars_isDigit _)]
    rw [parseNatFold_natDecChars, hcastnum,
      (Rat.den_eq_one_iff q).mp hden1]
  · simp only [if_neg hk0]
    have hkpos : 1 ≤ k := Nat.pos_of_ne_zero hk0
    have hpowpos : 0 < 10 ^ k := pow_pos (by norm_num) k
    have hndvd : q.den ∣ q.num.natAbs * 10 ^ k :=
      Dvd.dvd.mul_left hkdvd q.num.natAbs
    have hm : (q.num.natAbs * 10 ^ k / q.den) * q.den =
        q.num.natAbs * 10 ^ k := Nat.div_mul_cancel hndvd
    have hlen : (natDecChars
        (q.num.natAbs * 10 ^ k / q.den % 10 ^ k)).length ≤ k :=
      natDecChars_length_le _ k hkpos (Nat.mod_lt _ hpowpos)
    rw [parseF64Chars_frac_form
      (natDecChars (q.num.natAbs * 10 ^ k / q.den / 10 ^ k)) _
      (natDecChars_ne_nil _) (natDecChars_isDigit _) ?hfdig]
    case hfdig =>
      intro x hx
      rcases List.mem_append.mp hx with hx | hx
      · rw [List.eq_of_mem_replicate hx]
        decide
      · exact natDecChars_isDigit _ x hx
    rw [parseNatFold_natDecChars]
    rw [parseNatFold_replicate_zero, parseNatFold_natDecChars]
    have hplen : (List.replicate
        (k - (natDecChars
          (q.num.natAbs * 10 ^ k / q.den % 10 ^ k)).length) '0' ++
        natDecChars (q.num.natAbs * 10 ^ k / q.den % 10 ^ k)).length
        = k := by
      rw [List.length_append, List.length_replicate]
      omega
    rw [hplen]
    congr 1
    have hden0 : ((q.den : Nat) : ℚ) ≠ 0 :=
      Nat.cast_ne_zero.mpr q.den_pos.ne'
    have hpow0 : ((10 : ℚ)) ^ k ≠ 0 := pow_ne_zero k (by norm_num)
    have hq : q = ((q.num.natAbs : Nat) : ℚ) / ((q.den : Nat) : ℚ) := by
      rw [hcastnum, Rat.num_div_den]
    have hm2 : ((q.num.natAbs * 10 ^ k / q.den : Nat) : ℚ) *
        ((q.den : Nat) : ℚ) =
        ((q.num.natAbs : Nat) : ℚ) * (10 : ℚ) ^ k := by
      exact_mod_cast congrArg (fun x : Nat => (x : ℚ)) hm
    have hab : (10 : ℚ) ^ k *
        ((q.num.natAbs * 10 ^ k / q.den / 10 ^ k : Nat) : ℚ) +
        ((q.num.natAbs * 10 ^ k / q.den % 10 ^ k : Nat) : ℚ) =
        ((q.num.natAbs * 10 ^ k / q.den : Nat) : ℚ) := by
      exact_mod_cast Nat.div_add_mod (q.num.natAbs * 10 ^ k / q.den)
        (10 ^ k)
    conv_rhs => rw [hq]
    field_simp
    linear_combination ((q.den : Nat) : ℚ) * hab + hm2

theorem fmtDot1_natCast (n : Nat) :
    fmtDot1 ((n : Nat) : ℚ) = natDecString n ++ ".0" := by
  have hc : ((n : Nat) : ℚ) = ((n : Int) : ℚ) := by push_cast; ring
  rw [hc, fmtDot1, if_pos (ratFract_intCast n), ratTrunc_intCast]
  rw [intDecString, intDecChars,
    if_neg (not_lt.mpr (Int.natCast_nonneg n)), Int.natAbs_ofNat]
  rfl

theorem parseF64Chars_fmtDot1_natCast (n : Nat) :
    parseF64Chars (fmtDot1 ((n : Nat) : ℚ)).toList =
      some ((n : Nat) : ℚ) := by
  rw [fmtDot1_natCast]
  have hlist : (natDecString n ++ ".0").toList =
      natDecChars n ++ '.' :: ['0'] := by
    show (natDecString n ++ ".0").data = _
    rw [String.data_append]
    rfl
  rw [hlist]
  rw [parseF64Chars_frac_form (natDecChars n) ['0']
    (natDecChars_ne_nil n) (natDecChars_isDigit n) (by decide)]
  rw [parseNatFold_natDecChars]
  rw [show parseNatFold 0 ['0'] = 0 from by decide]
  norm_num

theorem numberFracPart_some_spec (x f r : List Char)
    (h : numberFracPart x = some (f, r)) :
    x = '.' :: (f ++ r) ∧ f ≠ [] ∧ ∀ c ∈ f, c.isDigit = true := by
  cases x with
  | nil => exact Option.noConfusion h
  | cons dot afterDot =>
    simp only [numberFracPart] at h
    split at h
    · rename_i hdot
      split at h
      · rename_i d tail
        split at h
        · rename_i hdig
          simp only [Option.some.injEq, Prod.mk.injEq] at h
          obtain ⟨hf, hr⟩ := h
          obtain ⟨hdigs, hsplit⟩ := spanP_take_all Char.isDigit
            (d :: tail) (spanP Char.isDigit (d :: tail)).1
            (spanP Char.isDigit (d :: tail)).2 rfl
          have hhead : (spanP Char.isDigit (d :: tail)).1 =
              d :: (spanP Char.isDigit tail).1 := by
            simp [spanP, hdig]
          refine ⟨?_, ?_, ?_⟩
          · rw [hdot, ← hf, ← hr, ← hsplit]
          · rw [← hf, hhead]
            simp
          · intro c hc
            exact hdigs c (hf ▸ hc)
        · exact Option.noConfusion h
      · exact Option.noConfusion h
    · exact Option.noConfusion h

/-- `Parser::primary` at a NUMBER token: the stored literal text is
re-parsed with `str::parse::<f64>` to form the literal value. -/
theorem primaryP_number_token (tok : Token) (eofLine : Nat) (l : String)
    (q : ℚ) (htt : tok.token_type = .NUMBER) (hlit : tok.literal = some l)
    (hq : parseF64 l = some q) :
    primaryP 1 [tok, ⟨.EOF, "", none, eofLine⟩] 0 =
      (some (.literal (.NumberLiteral q)), 1) := by
  simp [primaryP, matchTokenP, checkP, isAtEndP, peekTok, advanceP,
    previousTok, htt, hlit, hq]

/-- C4 (amended): the runtime renderer maps every Number with zero
fractional part whose value fits in `i64` to its plain integer decimal
text; whole numbers at or above `2^63` render as the saturated upper
bound and whole numbers at or below `-(2^63)` as the saturated lower
bound; every other Number renders as its exact decimal expansion —
full precision, in that re-parsing the rendering (for the values of
number lexemes, whose denominators divide a power of ten) recovers the
value exactly; and `PrintStmt` writes the rendering of the evaluated
value followed by a newline as its only output. -/
theorem C4_runtime_renderer_amended :
    (∀ q : ℚ, ratFract q = 0 → -(2 ^ 63) ≤ q.num →
      q.num ≤ 2 ^ 63 - 1 →
      literal_to_string (.NumberLiteral q) = intDecString q.num) ∧
    (∀ q : ℚ, ratFract q = 0 → 2 ^ 63 ≤ q.num →
      literal_to_string (.NumberLiteral q) =
        intDecString (2 ^ 63 - 1)) ∧
    (∀ q : ℚ, ratFract q = 0 → q.num ≤ -(2 ^ 63) →
      literal_to_string (.NumberLiteral q) =
        intDecString (-(2 ^ 63))) ∧
    (∀ q : ℚ, ratFract q ≠ 0 →
      literal_to_string (.NumberLiteral q) = ratToDecString q) ∧
    (∀ (q : ℚ) (j : Nat), 0 ≤ q → q.den ∣ 10 ^ j →
      parseF64 (ratToDecString q) = some q) ∧
    (∀ (env : Environment) (out : List String) (e : Expr)
      (v : LiteralValue) (env' : Environment),
      evaluate env e = (.ok v, env') →
      execute ⟨env, out⟩ (.print e) =
        (.ok (), ⟨env', out ++ [literal_to_string v ++ "\n"]⟩)) := by
  refine ⟨fun q hf h1 h2 => ?_, fun q hf h1 => ?_, fun q hf h1 => ?_,
    fun q hf => ?_, fun q j h0 hd => ?_,
    fun env out e v env' hev => ?_⟩
  · rw [← intCast_num_of_ratFract_eq_zero q hf]
    exact literal_to_string_intCast q.num h1 h2
  · rw [← intCast_num_of_ratFract_eq_zero q hf]
    exact literal_to_string_sat_top q.num h1
  · rw [← intCast_num_of_ratFract_eq_zero q hf]
    exact literal_to_string_sat_bot q.num h1
  · rw [literal_to_string]
    rw [if_neg hf]
  · exact parseF64Chars_ratToDecChars q h0 j hd
  · simp [execute, hev]

/-- Witness for C4's amended theorem: the whole number 3 renders as its
plain decimal text, the whole number `-(2^63)-1` saturates to the
`i64` minimum, the non-whole number 3/2 renders via the exact decimal
expansion, re-parsing the rendering of 3 recovers 3, and a print
statement emits rendering plus newline. -/
theorem C4_runtime_renderer_amended_witness :
    ratFract ((3 : Int) : ℚ) = 0 ∧
    literal_to_string (.NumberLiteral ((3 : Int) : ℚ)) =
      intDecString ((3 : Int) : ℚ).num ∧
    intDecString ((3 : Int) : ℚ).num = "3" ∧
    literal_to_string (.NumberLiteral ((-9223372036854775809 : Int) : ℚ))
      = intDecString (-(2 ^ 63)) ∧
    literal_to_string (.NumberLiteral ((3 : ℚ) / 2)) =
      ratToDecString ((3 : ℚ) / 2) ∧
    parseF64 (ratToDecString ((3 : Int) : ℚ)) = some ((3 : Int) : ℚ) ∧
    evaluate (.mk [] none) (.literal .Nil) = (.ok .Nil, .mk [] none) ∧
    execute ⟨.mk [] none, []⟩ (.print (.literal .Nil)) =
      (.ok (), ⟨.mk [] none, [] ++ [literal_to_string .Nil ++ "\n"]⟩) :=
  ⟨ratFract_intCast 3,
   C4_runtime_renderer_amended.1 _ (ratFract_intCast 3) (by norm_num)
     (by norm_num),
   by rw [Rat.num_intCast]; decide,
   C4_runtime_renderer_amended.2.2.1 _
     (ratFract_intCast (-9223372036854775809))
     (by rw [Rat.num_intCast]; norm_num),
   C4_runtime_renderer_amended.2.2.2.1 _ (by
     intro h
     have h2 : (3 : ℚ) / 2 = ((ratTrunc ((3 : ℚ) / 2) : Int) : ℚ) := by
       have h3 := sub_eq_zero.mp h
       linarith [h3]
     rw [div_eq_iff (by norm_num : (2 : ℚ) ≠ 0)] at h2
     have h4 : (3 : Int) = ratTrunc ((3 : ℚ) / 2) * 2 := by
       exact_mod_cast h2
     omega),
   C4_runtime_renderer_amended.2.2.2.2.1 _ 0 (by norm_num)
     (by rw [Rat.den_intCast]; exact one_dvd _),
   rfl,
   C4_runtime_renderer_amended.2.2.2.2.2 _ _ _ _ _ rfl⟩

/-- C8: for every number lexeme the scanner accepts (a digit run,
optionally `'.'` and a further digit run), the Number value the parser
ultimately builds from the token — by re-parsing the re-formatted
literal text the scanner stored — equals the value parsed directly
from the lexeme. -/
theorem C8_number_roundtrip (c : Char) (rest : List Char) (line : Nat)
    (h : c.isDigit = true) :
    ∃ q : ℚ,
      parseF64 (scanNumber c rest line).1.lexeme = some q ∧
      primaryP 1 [(scanNumber c rest line).1, ⟨.EOF, "", none, 1⟩] 0 =
        (some (.literal (.NumberLiteral q)), 1) := by
  obtain ⟨hs1dig, _⟩ := spanP_take_all Char.isDigit rest
    (spanP Char.isDigit rest).1 (spanP Char.isDigit rest).2 rfl
  have hintdig : ∀ x ∈ c :: (spanP Char.isDigit rest).1,
      x.isDigit = true := by
    intro x hx
    rcases List.mem_cons.mp hx with hx | hx
    · subst hx; exact h
    · exact hs1dig x hx
  cases hf : numberFracPart (spanP Char.isDigit rest).2 with
  | none =>
    have hparse : parseF64Chars (c :: (spanP Char.isDigit rest).1) =
        some ((parseNatFold 0 (c :: (spanP Char.isDigit rest).1) :
          Nat) : ℚ) :=
      parseF64Chars_int_form _ (by simp) hintdig
    have hlex : (scanNumber c rest line).1.lexeme =
        String.mk (c :: (spanP Char.isDigit rest).1) := by
      simp [scanNumber, hf]
    have hlit : (scanNumber c rest line).1.literal =
        some (fmtDot1 ((parseF64Chars
          (c :: (spanP Char.isDigit rest).1)).getD 0)) := by
      simp [scanNumber, hf]
    refine ⟨((parseNatFold 0 (c :: (spanP Char.isDigit rest).1) :
      Nat) : ℚ), ?_, ?_⟩
    · rw [hlex]
      exact hparse
    · have hq' : parseF64 (fmtDot1 ((parseF64Chars
          (c :: (spanP Char.isDigit rest).1)).getD 0)) =
          some ((parseNatFold 0 (c :: (spanP Char.isDigit rest).1) :
            Nat) : ℚ) := by
        rw [hparse, Option.getD_some]
        exact parseF64Chars_fmtDot1_natCast _
      exact primaryP_number_token _ 1 _ _
        (scanNumber_token_type c rest line) hlit hq'
  | some p =>
    rcases p with ⟨fs, rest3⟩
    obtain ⟨hx, hfne, hfdig⟩ := numberFracPart_some_spec _ _ _ hf
    have hparse : parseF64Chars
        ((c :: (spanP Char.isDigit rest).1) ++ '.' :: fs) =
        some (((parseNatFold 0 (c :: (spanP Char.isDigit rest).1) :
          Nat) : ℚ) +
          ((parseNatFold 0 fs : Nat) : ℚ) / (10 : ℚ) ^ fs.length) :=
      parseF64Chars_frac_form _ fs (by simp) hintdig hfdig
    have hlex : (scanNumber c rest line).1.lexeme =
        String.mk (c :: ((spanP Char.isDigit rest).1 ++ '.' :: fs)) := by
      simp [scanNumber, hf]
    have hlit : (scanNumber c rest line).1.literal =
        some (if fs.all (fun d => d = '0') then
          fmtDot1 ((parseF64Chars
            (c :: ((spanP Char.isDigit rest).1 ++ '.' :: fs))).getD 0)
        else ratToDecString ((parseF64Chars
            (c :: ((spanP Char.isDigit rest).1 ++ '.' :: fs))).getD 0))
        := by
      simp [scanNumber, hf]
    have hv : (parseF64Chars
        (c :: ((spanP Char.isDigit rest).1 ++ '.' :: fs))).getD 0 =
        ((parseNatFold 0 (c :: (spanP Char.isDigit rest).1) : Nat) : ℚ)
          + ((parseNatFold 0 fs : Nat) : ℚ) / (10 : ℚ) ^ fs.length := by
      show (parseF64Chars
        ((c :: (spanP Char.isDigit rest).1) ++ '.' :: fs)).getD 0 = _
      rw [hparse, Option.getD_some]
    refine ⟨((parseNatFold 0 (c :: (spanP Char.isDigit rest).1) :
      Nat) : ℚ) +
      ((parseNatFold 0 fs : Nat) : ℚ) / (10 : ℚ) ^ fs.length, ?_, ?_⟩
    · rw [hlex]
      exact hparse
    · have hq' : parseF64 (if fs.all (fun d => d = '0') then
          fmtDot1 ((parseF64Chars
            (c :: ((spanP Char.isDigit rest).1 ++ '.' :: fs))).getD 0)
        else ratToDecString ((parseF64Chars
            (c :: ((spanP Char.isDigit rest).1 ++ '.' :: fs))).getD 0))
          = some (((parseNatFold 0
            (c :: (spanP Char.isDigit rest).1) : Nat) : ℚ) +
            ((parseNatFold 0 fs : Nat) : ℚ) / (10 : ℚ) ^ fs.length) := by
        rw [hv]
        by_cases hz : fs.all (fun d => d = '0')
        · rw [if_pos hz]
          have hF0 : parseNatFold 0 fs = 0 := by
            refine parseNatFold_all_zero fs ?_
            intro d hd
            have := List.all_eq_true.mp hz d hd
            exact of_decide_eq_true this
          have hq0 : ((parseNatFold 0
              (c :: (spanP Char.isDigit rest).1) : Nat) : ℚ) +
              ((parseNatFold 0 fs : Nat) : ℚ) / (10 : ℚ) ^ fs.length =
              ((parseNatFold 0 (c :: (spanP Char.isDigit rest).1) :
                Nat) : ℚ) := by
            rw [hF0]
            simp
          rw [hq0]
          exact parseF64Chars_fmtDot1_natCast _
        · rw [if_neg hz]
          set q : ℚ := ((parseNatFold 0
            (c :: (spanP Char.isDigit rest).1) : Nat) : ℚ) +
            ((parseNatFold 0 fs : Nat) : ℚ) / (10 : ℚ) ^ fs.length
            with hqdef
          have hq2 : q = Rat.divInt
              ((parseNatFold 0 (c :: (spanP Char.isDigit rest).1) *
                10 ^ fs.length + parseNatFold 0 fs : Nat) : Int)
              ((10 ^ fs.length : Nat) : Int) := by
            rw [Rat.divInt_eq_div, hqdef]
            push_cast
            have hp : ((10 : ℚ)) ^ fs.length ≠ 0 :=
              pow_ne_zero _ (by norm_num)
            field_simp
          have hden : q.den ∣ 10 ^ fs.length := by
            have hd := Rat.den_dvd
              ((parseNatFold 0 (c :: (spanP Char.isDigit rest).1) *
                10 ^ fs.length + parseNatFold 0 fs : Nat) : Int)
              ((10 ^ fs.length : Nat) : Int)
            rw [← hq2] at hd
            exact_mod_cast hd
          have hq0 : 0 ≤ q := by
            rw [hqdef]
            positivity
          exact parseF64Chars_ratToDecChars q hq0 fs.length hden
      exact primaryP_number_token _ 1 _ _
        (scanNumber_token_type c rest line) hlit hq'

/-- Witness for C8 at the concrete number lexemes "200" and "200.05". -/
theorem C8_number_roundtrip_witness :
    ('2'.isDigit = true) ∧
    (∃ q : ℚ,
      parseF64 (scanNumber '2' "00".toList 1).1.lexeme = some q ∧
      primaryP 1 [(scanNumber '2' "00".toList 1).1,
        ⟨.EOF, "", none, 1⟩] 0 =
        (some (.literal (.NumberLiteral q)), 1)) ∧
    (∃ q : ℚ,
      parseF64 (scanNumber '2' "00.05".toList 1).1.lexeme = some q ∧
      primaryP 1 [(scanNumber '2' "00.05".toList 1).1,
        ⟨.EOF, "", none, 1⟩] 0 =
        (some (.literal (.NumberLiteral q)), 1)) :=
  ⟨by decide,
   C8_number_roundtrip '2' "00".toList 1 (by decide),
   C8_number_roundtrip '2' "00.05".toList 1 (by decide)⟩

end Lox
